import Mathlib

set_option maxRecDepth 40000

/-!
Shallow embedding of `src/audio/data.py` from the fastai_audio repository:
the caching and pre-processing pipeline (silence removal, resampling,
segmentation, spectrogram computation, disk-backed caching), together with
proofs settling the frozen claims about it.

Modelling conventions:
* Python `pathlib` paths are `Path` (an absoluteness flag plus segments);
  `a / b` is `Path.join`, which discards `a` when `b` is absolute, as
  `pathlib` does.
* The filesystem is an explicit `FS` value: an association list of files
  (audio or tensor data) plus a list of directories created by `makedirs`.
* Machine integers are `Nat` with explicit `% 2 ^ 32` where overflow
  matters (inside MD5).
* External library and repository code that is not in `src/`
  (`tfm_resample`, `tfm_chop_silence`, `standardize`, the torchaudio
  spectrogram transforms) are parameters collected in an `Ext` record.
* `md5` is a full implementation of the MD5 digest over ASCII strings,
  mirroring `hashlib.md5(s.encode()).hexdigest()`.
-/

namespace FastaiAudio

/-- A one-dimensional audio signal, a list of integer samples. -/
abbrev Sig : Type := List Int

/-- Labels attached to items; Python passes them through unchanged and
also formats them with `str` inside `segment_items` hash parameters, so we
model them as strings. -/
abbrev Label : Type := String

/-- Spectrogram tensors; their numeric contents are irrelevant to every
claim, so they are a concrete carrier transformed only by the external
functions in `Ext`. -/
abbrev Tensor : Type := List (List Int)

/-- A `pathlib` path: an absoluteness flag and the list of segments. -/
structure Path where
  isAbs : Bool
  segs : List String
deriving DecidableEq, Repr

/-- `pathlib` division `a / b`: if `b` is absolute it replaces `a`. -/
def Path.join (a b : Path) : Path :=
  if b.isAbs then b else ⟨a.isAbs, a.segs ++ b.segs⟩

/-- `a / s` for a single string segment `s`. -/
def Path.child (a : Path) (s : String) : Path :=
  ⟨a.isAbs, a.segs ++ [s]⟩

/-- Python `str(p)` on a path. -/
def Path.str (p : Path) : String :=
  (if p.isAbs then "/" else "") ++ String.intercalate "/" p.segs

/-- Parent directory of a path. -/
def Path.parent (p : Path) : Path :=
  ⟨p.isAbs, p.segs.dropLast⟩

/-- `base` is an ancestor of `q` or equal to it. -/
def Path.isAncestorOrSelf (base q : Path) : Bool :=
  base.isAbs == q.isAbs && base.segs.isPrefixOf q.segs

/-- `q` lies strictly inside the directory `base`. -/
def Path.isUnder (q base : Path) : Bool :=
  base.isAbs == q.isAbs && base.segs.isPrefixOf q.segs
    && decide (base.segs.length < q.segs.length)

/-- `q` is a direct child of directory `dir`. -/
def Path.isDirectChildOf (q dir : Path) : Bool :=
  dir.isAbs == q.isAbs && dir.segs.isPrefixOf q.segs
    && q.segs.length == dir.segs.length + 1

/-- Contents of a file on disk: a wav (signal and sample rate, as written
by `torchaudio.save`) or a serialized tensor (as written by `torch.save`). -/
inductive FileData where
  | wav (sig : Sig) (sr : Nat)
  | tensor (t : Tensor)
deriving DecidableEq

/-- The filesystem: files as an association list from path to data (in
creation order) and the set of directories created with `os.makedirs`. -/
structure FS where
  files : List (Path × FileData)
  dirs : List Path
deriving DecidableEq

/-- Read the data stored at path `p`, if a file is there. -/
def FS.lookup (fs : FS) (p : Path) : Option FileData :=
  (fs.files.find? (fun e => e.1 == p)).map (fun e => e.2)

/-- Write data at path `p`, replacing an existing file in place or
appending a new entry (torchaudio.save / torch.save overwrite semantics). -/
def FS.save (fs : FS) (p : Path) (d : FileData) : FS :=
  if fs.files.any (fun e => e.1 == p) then
    ⟨fs.files.map (fun e => if e.1 == p then (p, d) else e), fs.dirs⟩
  else
    ⟨fs.files ++ [(p, d)], fs.dirs⟩

/-- `os.makedirs(p, exist_ok=True)`, recorded as the single target
directory. -/
def FS.makedirs (fs : FS) (p : Path) : FS :=
  if fs.dirs.contains p then fs else ⟨fs.files, fs.dirs ++ [p]⟩

/-- `os.path.exists` / `Path.exists`: true when `p` is a file, a created
directory, or an ancestor of either. -/
def FS.exists (fs : FS) (p : Path) : Bool :=
  fs.files.any (fun e => p.isAncestorOrSelf e.1)
    || fs.dirs.any (fun d => p.isAncestorOrSelf d)

/-- fastai `get_files(dir)`: the files that are direct children of `dir`,
in filesystem (creation) order. -/
def FS.getFiles (fs : FS) (dir : Path) : List Path :=
  (fs.files.filter (fun e => e.1.isDirectChildOf dir)).map (fun e => e.1)

/-! ## Decimal representation of naturals (Python `str(i)`)

A fuel-based structural recursion so that all evaluations reduce inside
the kernel; `natStr` is proved injective below, which is what the cache
filename lemmas need. -/

/-- Little-endian decimal digits of `n`, with explicit fuel. -/
def natDigitsAux : Nat → Nat → List Nat
  | 0, _ => []
  | fuel + 1, n => if n < 10 then [n] else n % 10 :: natDigitsAux fuel (n / 10)

/-- Little-endian decimal digits of `n`. -/
def natDigits (n : Nat) : List Nat := natDigitsAux (n + 1) n

/-- Python `str(i)` for a natural number. -/
def natStr (n : Nat) : String :=
  String.mk ((natDigits n).reverse.map Nat.digitChar)

/-! ## MD5 (hashlib.md5 over ASCII strings) -/

/-- The 64 MD5 round constants `K[i] = floor(2^32 * abs(sin(i+1)))`. -/
def md5K : List Nat :=
  [0xd76aa478, 0xe8c7b756, 0x242070db, 0xc1bdceee,
   0xf57c0faf, 0x4787c62a, 0xa8304613, 0xfd469501,
   0x698098d8, 0x8b44f7af, 0xffff5bb1, 0x895cd7be,
   0x6b901122, 0xfd987193, 0xa679438e, 0x49b40821,
   0xf61e2562, 0xc040b340, 0x265e5a51, 0xe9b6c7aa,
   0xd62f105d, 0x02441453, 0xd8a1e681, 0xe7d3fbc8,
   0x21e1cde6, 0xc33707d6, 0xf4d50d87, 0x455a14ed,
   0xa9e3e905, 0xfcefa3f8, 0x676f02d9, 0x8d2a4c8a,
   0xfffa3942, 0x8771f681, 0x6d9d6122, 0xfde5380c,
   0xa4beea44, 0x4bdecfa9, 0xf6bb4b60, 0xbebfbc70,
   0x289b7ec6, 0xeaa127fa, 0xd4ef3085, 0x04881d05,
   0xd9d4d039, 0xe6db99e5, 0x1fa27cf8, 0xc4ac5665,
   0xf4292244, 0x432aff97, 0xab9423a7, 0xfc93a039,
   0x655b59c3, 0x8f0ccc92, 0xffeff47d, 0x85845dd1,
   0x6fa87e4f, 0xfe2ce6e0, 0xa3014314, 0x4e0811a1,
   0xf7537e82, 0xbd3af235, 0x2ad7d2bb, 0xeb86d391]

/-- The MD5 per-round left-rotation amounts. -/
def md5S : List Nat :=
  [7, 12, 17, 22, 7, 12, 17, 22, 7, 12, 17, 22, 7, 12, 17, 22,
   5, 9, 14, 20, 5, 9, 14, 20, 5, 9, 14, 20, 5, 9, 14, 20,
   4, 11, 16, 23, 4, 11, 16, 23, 4, 11, 16, 23, 4, 11, 16, 23,
   6, 10, 15, 21, 6, 10, 15, 21, 6, 10, 15, 21, 6, 10, 15, 21]

/-- Left rotation of a 32-bit word. -/
def rotl32 (x n : Nat) : Nat :=
  ((x <<< n) % 4294967296) + (x >>> (32 - n))

/-- Bitwise complement of a 32-bit word. -/
def not32 (x : Nat) : Nat := 4294967295 - x

/-- The MD5 nonlinear function for round `i`. -/
def md5F (i b c d : Nat) : Nat :=
  if i < 16 then (b &&& c) ||| (not32 b &&& d)
  else if i < 32 then (d &&& b) ||| (not32 d &&& c)
  else if i < 48 then b ^^^ c ^^^ d
  else c ^^^ (b ||| not32 d)

/-- The MD5 message-word index for round `i`. -/
def md5G (i : Nat) : Nat :=
  if i < 16 then i
  else if i < 32 then (5 * i + 1) % 16
  else if i < 48 then (3 * i + 5) % 16
  else (7 * i) % 16

/-- Running MD5 state. -/
structure MDState where
  a : Nat
  b : Nat
  c : Nat
  d : Nat
deriving DecidableEq

/-- One MD5 round over message words `m`. -/
def md5Round (m : List Nat) (st : MDState) (i : Nat) : MDState :=
  let f := (md5F i st.b st.c st.d + st.a + md5K.getD i 0 + m.getD (md5G i) 0)
    % 4294967296
  ⟨st.d, (st.b + rotl32 f (md5S.getD i 0)) % 4294967296, st.b, st.c⟩

/-- Process one 16-word block. -/
def md5Block (st : MDState) (m : List Nat) : MDState :=
  let r := (List.range 64).foldl (md5Round m) st
  ⟨(st.a + r.a) % 4294967296, (st.b + r.b) % 4294967296,
   (st.c + r.c) % 4294967296, (st.d + r.d) % 4294967296⟩

/-- The 8 little-endian bytes of a 64-bit length field. -/
def leBytes8 (n : Nat) : List Nat :=
  (List.range 8).map (fun i => (n >>> (8 * i)) % 256)

/-- MD5 padding: `0x80`, zeros to 56 mod 64, then the bit length. -/
def md5Pad (msg : List Nat) : List Nat :=
  let len := msg.length
  let zeros := (64 + 56 - (len + 1) % 64) % 64
  msg ++ [128] ++ List.replicate zeros 0 ++ leBytes8 (8 * len)

/-- Split padded bytes into 16-word blocks (little-endian words). -/
def md5Words (padded : List Nat) (blockIdx : Nat) : List Nat :=
  (List.range 16).map (fun j =>
    let at4 := fun k => padded.getD (64 * blockIdx + 4 * j + k) 0
    at4 0 + 256 * at4 1 + 65536 * at4 2 + 16777216 * at4 3)

/-- Hex character for a nibble. -/
def hexChar (n : Nat) : Char := "0123456789abcdef".toList.getD n '0'

/-- Two lowercase hex characters for a byte. -/
def byteHex (b : Nat) : String := String.mk [hexChar (b / 16), hexChar (b % 16)]

/-- Little-endian hex rendering of a 32-bit word. -/
def wordHexLE (w : Nat) : String :=
  byteHex (w % 256) ++ byteHex (w / 256 % 256) ++ byteHex (w / 65536 % 256)
    ++ byteHex (w / 16777216 % 256)

/-- `hashlib.md5(s.encode("utf-8")).hexdigest()` for ASCII strings, as
used by the `md5` helper in `data.py`. -/
def md5 (s : String) : String :=
  let padded := md5Pad (s.toList.map Char.toNat)
  let st := (List.range (padded.length / 64)).foldl
    (fun st i => md5Block st (md5Words padded i))
    ⟨0x67452301, 0xefcdab89, 0x98badcfe, 0x10325476⟩
  wordHexLE st.a ++ wordHexLE st.b ++ wordHexLE st.c ++ wordHexLE st.d

/-! ## Configuration dataclasses -/

/-- `SpectrogramConfig`: configuration for how spectrograms are
generated.  All seven attributes are annotated dataclass fields.
`ws` is annotated `int` with default `None`, hence `Option Nat`. -/
structure SpectrogramConfig where
  n_fft : Nat := 2560
  ws : Option Nat := none
  hop : Nat := 512
  f_min : Nat := 0
  f_max : Nat := 8000
  pad : Nat := 0
  n_mels : Nat := 128
deriving DecidableEq

/-- `AudioTransformConfig`: options for pre-processing audio signals.
The attributes `cache_dir`, `force_cache`, `to_db_scale`, `processed` and
`sg_cfg` carry no type annotation in the source, so Python treats them as
class attributes rather than dataclass fields; `dataclasses.asdict`
therefore omits them.  `max_to_pad` is annotated `float`; the claims only
exercise whole-millisecond values, so it is modelled as `Option Nat`. -/
structure AudioTransformConfig where
  remove_silence : Bool := false
  use_spectro : Bool := true
  cache : Bool := true
  cache_dir : Option Path := some ⟨false, [".cache"]⟩
  force_cache : Bool := false
  to_db_scale : Bool := true
  silence_padding : Nat := 200
  top_db : Nat := 80
  processed : Bool := false
  segment_size : Option Nat := none
  silence_threshold : Nat := 20
  max_to_pad : Option Nat := none
  resample_to : Option Nat := none
  standardize : Bool := false
  sg_cfg : SpectrogramConfig := {}
  mfcc : Bool := false
  n_mfcc : Nat := 20
  delta : Bool := false
deriving DecidableEq

/-- Python truthiness of an optional integer: `None` and `0` are falsy. -/
def pyTruthy (o : Option Nat) : Bool := o.getD 0 != 0

/-- Python `str` of a boolean. -/
def pyBool (b : Bool) : String := if b then "True" else "False"

/-- Python `str` of an optional integer (`None` or the decimal digits). -/
def pyOptNat (o : Option Nat) : String :=
  match o with
  | none => "None"
  | some n => natStr n

/-- Python `str(asdict(cfg))` for an `AudioTransformConfig`: only the
thirteen annotated dataclass fields appear, in declaration order. -/
def strAsdict (c : AudioTransformConfig) : String :=
  "\x7b\x27remove_silence\x27: " ++ pyBool c.remove_silence ++
  ", \x27use_spectro\x27: " ++ pyBool c.use_spectro ++
  ", \x27cache\x27: " ++ pyBool c.cache ++
  ", \x27silence_padding\x27: " ++ natStr c.silence_padding ++
  ", \x27top_db\x27: " ++ natStr c.top_db ++
  ", \x27segment_size\x27: " ++ pyOptNat c.segment_size ++
  ", \x27silence_threshold\x27: " ++ natStr c.silence_threshold ++
  ", \x27max_to_pad\x27: " ++ pyOptNat c.max_to_pad ++
  ", \x27resample_to\x27: " ++ pyOptNat c.resample_to ++
  ", \x27standardize\x27: " ++ pyBool c.standardize ++
  ", \x27mfcc\x27: " ++ pyBool c.mfcc ++
  ", \x27n_mfcc\x27: " ++ natStr c.n_mfcc ++
  ", \x27delta\x27: " ++ pyBool c.delta ++ "\x7d"

/-- Python `str(asdict(sg))` for a `SpectrogramConfig`. -/
def strAsdictSG (c : SpectrogramConfig) : String :=
  "\x7b\x27n_fft\x27: " ++ natStr c.n_fft ++
  ", \x27ws\x27: " ++ pyOptNat c.ws ++
  ", \x27hop\x27: " ++ natStr c.hop ++
  ", \x27f_min\x27: " ++ natStr c.f_min ++
  ", \x27f_max\x27: " ++ natStr c.f_max ++
  ", \x27pad\x27: " ++ natStr c.pad ++
  ", \x27n_mels\x27: " ++ natStr c.n_mels ++ "\x7d"

/-- The string hashed for the spectrogram cache file in `AudioList.open`:
`str(asdict(cfg)) + str(asdict(cfg.sg_cfg)) + str(p)` (line 169). -/
def spectroHashInput (cfg : AudioTransformConfig) (p : Path) : String :=
  strAsdict cfg ++ strAsdictSG cfg.sg_cfg ++ p.str

/-! ## External transforms

Modelled from the spec: `tfm_resample`, `tfm_chop_silence`, `standardize`
and `torchdelta` live in the `audio` and `transform` modules of the
repository, which are not part of `src/`; the spec describes them only as
resampling, silence removal and spectrogram post-processing.  The
torchaudio and torch transforms (`MelSpectrogram`, `SpectrogramToDB`,
`MFCC`, `PadTrim`, `squeeze`, `permute`, `expand`, `stack`) are external
library code.  All are collected as opaque-to-the-claims function
parameters in a record. -/
structure Ext where
  tfm_resample : Sig → Nat → Option Nat → Sig
  tfm_chop_silence : Sig → Nat → Nat → Nat → List Sig
  mel_spectrogram : SpectrogramConfig → Sig → Tensor
  spectrogram_to_db : Nat → Tensor → Tensor
  mfcc_transform : Nat → Nat → SpectrogramConfig → Sig → Tensor
  pad_trim : Nat → Sig → Sig
  squeeze : Tensor → Tensor
  permute : Tensor → Tensor
  standardize : Tensor → Tensor
  torchdelta : Tensor → Tensor
  torchdelta2 : Tensor → Tensor
  stack3 : Tensor → Tensor → Tensor → Tensor
  expand3 : Tensor → Tensor

/-! ## Disk cache helpers (`get_cache`, `make_cache`) -/

/-- The cache directory used by one pre-processing operation:
`config.cache_dir / f"{cache_type}_{md5(''.join(map(str, hash_params)))}"`.
`hash_params` arrive already rendered by Python `str` at each call site.
`none` models `config.cache_dir` being `None`. -/
def cacheMark (cfg : AudioTransformConfig) (cache_type : String)
    (hash_params : List String) : Option Path :=
  cfg.cache_dir.map (fun cd =>
    cd.child (cache_type ++ "_" ++ md5 (String.join hash_params)))

/-- `get_cache` (data.py lines 58-63): `None` when there is no cache
directory or the mark directory does not exist; otherwise the files
directly inside the mark directory (possibly the empty list). -/
def get_cache (cfg : AudioTransformConfig) (cache_type : String)
    (hash_params : List String) (fs : FS) : Option (List Path) :=
  match cacheMark cfg cache_type hash_params with
  | none => none
  | some mark => if fs.exists mark then some (fs.getFiles mark) else none

/-- `make_cache` (data.py lines 65-76): create the mark directory when
there is at least one signal, write each non-empty signal to
`mark/"{i}.wav"`, and return the written paths in order.  The outer
`none` models the `TypeError` raised when `config.cache_dir` is `None`. -/
def make_cache (sigs : List Sig) (sr : Nat) (cfg : AudioTransformConfig)
    (cache_type : String) (hash_params : List String) (fs : FS) :
    Option (FS × List Path) :=
  match cacheMark cfg cache_type hash_params with
  | none => none
  | some mark =>
    if sigs.length > 0 then
      let r := sigs.enum.foldl (fun acc is =>
        if is.2.length < 1 then acc
        else
          let fn := mark.child (natStr is.1 ++ ".wav")
          (acc.1.save fn (FileData.wav is.2 sr), acc.2 ++ [fn]))
        (fs.makedirs mark, [])
      some (r.1, r.2)
    else some (fs, [])

/-! ## Pre-processing operations

Each returns `none` on a crash (missing file, `None` parameter), or the
new filesystem, the `(file, label)` pairs, and the list of paths passed
to `torchaudio.load` during the call. -/

/-- The path resolution shared by the pre-processing operations:
`if not os.path.exists(item_path): item_path = path/item_path`. -/
def resolvePath (fs : FS) (path p : Path) : Path :=
  if fs.exists p then p else path.join p

/-- `resample_item` (data.py lines 78-87). -/
def resample_item (ext : Ext) (item : Path × Label)
    (cfg : AudioTransformConfig) (path : Path) (fs : FS) :
    Option (FS × List (Path × Label) × List Path) :=
  let item_path := resolvePath fs path item.1
  let label := item.2
  let sr_new := cfg.resample_to
  match get_cache cfg "rs" [item_path.str, pyOptNat sr_new] fs with
  | some (f :: rest) => some (fs, (f :: rest).map (fun g => (g, label)), [])
  | _ =>
    match fs.lookup item_path with
    | some (FileData.wav sig sr) =>
      match sr_new with
      | some srn =>
        let sigs := [ext.tfm_resample sig sr sr_new]
        (make_cache sigs srn cfg "rs" [item_path.str, pyOptNat sr_new] fs).map
          (fun r => (r.1, r.2.map (fun g => (g, label)), [item_path]))
      | none => none
    | _ => none

/-- `remove_silence` (data.py lines 89-98). -/
def remove_silence (ext : Ext) (item : Path × Label)
    (cfg : AudioTransformConfig) (path : Path) (fs : FS) :
    Option (FS × List (Path × Label) × List Path) :=
  let item_path := resolvePath fs path item.1
  let label := item.2
  let st := cfg.silence_threshold
  let sp := cfg.silence_padding
  match get_cache cfg "sh" [item_path.str, natStr st, natStr sp] fs with
  | some (f :: rest) => some (fs, (f :: rest).map (fun g => (g, label)), [])
  | _ =>
    match fs.lookup item_path with
    | some (FileData.wav sig sr) =>
      let sigs := ext.tfm_chop_silence sig sr st sp
      (make_cache sigs sr cfg "sh" [item_path.str, natStr st, natStr sp] fs).map
        (fun r => (r.1, r.2.map (fun g => (g, label)), [item_path]))
    | _ => none

/-- The slices built by the loop in `segment_items` (data.py lines
107-110): `sig[i*segsize : min((i+1)*segsize, len(sig))]` for `i` in
`range(int(len(sig)/segsize) + 1)`. -/
def segSlices (sig : Sig) (segsize : Nat) : List Sig :=
  (List.range (sig.length / segsize + 1)).map (fun i =>
    (sig.drop (i * segsize)).take (min ((i + 1) * segsize) sig.length - i * segsize))

/-- `segment_items` (data.py lines 100-112).  The audio file is loaded
before the cache lookup, because the sample rate enters the hash
parameters.  `int(config.segment_size / 1000 * sr)` is a floating-point
expression in Python; it is modelled as the exact truncation
`ss * sr / 1000`, which agrees with the float value at every input used
here.  A `none` segment size or a zero `segsize` on a cache miss models
the `TypeError` and `ZeroDivisionError` Python would raise. -/
def segment_items (item : Path × Label)
    (cfg : AudioTransformConfig) (path : Path) (fs : FS) :
    Option (FS × List (Path × Label) × List Path) :=
  let item_path := resolvePath fs path item.1
  let label := item.2
  match fs.lookup item_path with
  | some (FileData.wav sig sr) =>
    match cfg.segment_size with
    | none => none
    | some ss =>
      let segsize := ss * sr / 1000
      match get_cache cfg "s" [item_path.str, natStr segsize, label] fs with
      | some (f :: rest) =>
        some (fs, (f :: rest).map (fun g => (g, label)), [item_path])
      | _ =>
        if segsize == 0 then none
        else
          (make_cache (segSlices sig segsize) sr cfg "s"
              [item_path.str, natStr segsize, label] fs).map
            (fun r => (r.1, r.2.map (fun g => (g, label)), [item_path]))
  | _ => none

/-! ## `AudioLabelList._pre_process` -/

/-- One pipeline stage of `_pre_process`: apply an operation to every
`(item, label)` pair in order, threading the filesystem, and flatten the
results.  `reduce(concat, ..., np.empty((0, 2)))` with
`concat(x, y) = np.concatenate((x, y)) if len(y) > 0 else x`
is exactly list flattening in order. -/
def applyOp
    (op : (Path × Label) → FS → Option (FS × List (Path × Label) × List Path)) :
    List (Path × Label) → FS → Option (FS × List (Path × Label)) :=
  fun items fs =>
    items.foldl (fun acc it =>
      match acc with
      | none => none
      | some (fs1, outs) =>
        match op it fs1 with
        | none => none
        | some (fs2, out, _) => some (fs2, outs ++ out))
      (some (fs, []))

/-- `AudioLabelList._pre_process` (data.py lines 116-141) acting on
`x.items` (paths), `y.items` (labels) and the filesystem.  The final
`nx, ny = tuple(zip(*items))` raises `ValueError` when the flattened
item list is empty, modelled by `none`. -/
def pre_process (ext : Ext) (cfg : AudioTransformConfig) (path : Path)
    (xs : List Path) (ys : List Label) (fs : FS) :
    Option (List Path × List Label × FS) :=
  if xs.length > 0 &&
      (cfg.remove_silence || pyTruthy cfg.segment_size || pyTruthy cfg.resample_to) then do
    let items0 := xs.zip ys
    let s1 ←
      if pyTruthy cfg.resample_to then
        applyOp (fun it fs1 => resample_item ext it cfg path fs1) items0 fs
      else some (fs, items0)
    let s2 ←
      if cfg.remove_silence then
        applyOp (fun it fs1 => remove_silence ext it cfg path fs1) s1.2 s1.1
      else some s1
    let s3 ←
      if pyTruthy cfg.segment_size then
        applyOp (fun it fs1 => segment_items it cfg path fs1) s2.2 s2.1
      else some s2
    if s3.2.isEmpty then none
    else some (s3.2.map Prod.fst, s3.2.map Prod.snd, s3.1)
  else some (xs, ys, fs)

/-! ## `AudioList` -/

/-- The result of `AudioList.open`: no raw signal and no sample rate on
the cached path, both present otherwise. -/
structure AudioItem where
  sig : Option Sig := none
  sr : Option Nat := none
  spectro : Option Tensor := none
  path : Path
  max_to_pad : Option Nat := none
deriving DecidableEq

/-- Errors raised by `AudioList.open`, propagated without recovery. -/
inductive OpenErr where
  | fileNotFound
  | invalidAudio
  | typeError
  | loadError
deriving DecidableEq

/-- A successful `open`: the item, the filesystem after any cache write,
and the paths passed to `torchaudio.load` during the call. -/
structure OpenResult where
  item : AudioItem
  fs : FS
  loads : List Path
deriving DecidableEq

/-- An entry of `AudioList.items` as examined by `AudioList.get`. -/
inductive AListItem where
  | audio (a : AudioItem)
  | path (p : Path)
  | strPath (s : String)
  | other
deriving DecidableEq

/-- Python `Path(s)` on a string. -/
def Path.ofString (s : String) : Path :=
  ⟨s.startsWith "/", (s.splitOn "/").filter (fun seg => seg != "")⟩

/-- The `AudioList` state relevant to the claims. -/
structure AudioList where
  items : List AListItem
  path : Path
  config : AudioTransformConfig
deriving DecidableEq

/-- `AudioList.__init__` (data.py lines 152-157): stores items and path
and rebases the cache directory, `config.cache_dir = path / config.cache_dir`. -/
def AudioList.mkInit (items : List AListItem) (path : Path)
    (config : AudioTransformConfig) : AudioList :=
  ⟨items, path,
    { config with cache_dir := config.cache_dir.map (fun cd => path.join cd) }⟩

/-- The spectrogram cache file used by `AudioList.open` (lines 168-170):
`(self.path / cfg.cache_dir) / (md5(...) + ".pt")`. -/
def imagePath (alPath : Path) (cfg : AudioTransformConfig) (cd p : Path) : Path :=
  (alPath.join cd).child (md5 (spectroHashInput cfg p) ++ ".pt")

/-- Python `str.lower` for ASCII strings, written over the character
list so that it reduces inside the kernel. -/
def strLower (s : String) : String := String.mk (s.toList.map Char.toLower)

/-- Python `str.endswith` for a single candidate suffix, written over
character lists so that it reduces inside the kernel. -/
def strEndsWith (s suf : String) : Bool := suf.toList.isSuffixOf s.toList

/-- The load-and-compute tail of `AudioList.open` (lines 176-196),
shared by the spectrogram and non-spectrogram paths; `imageOpt` is the
cache file when `use_spectro` is set. -/
def openCompute (ext : Ext) (cfg : AudioTransformConfig) (p item : Path)
    (imageOpt : Option Path) (fs : FS) : Except OpenErr OpenResult :=
  match fs.lookup p with
  | some (FileData.wav sig0 sr) =>
    let signal :=
      if pyTruthy cfg.max_to_pad then
        ext.pad_trim (cfg.max_to_pad.getD 0 * sr / 1000) sig0
      else sig0
    match imageOpt with
    | some image_path =>
      let mel0 :=
        if cfg.mfcc then ext.mfcc_transform sr cfg.n_mfcc cfg.sg_cfg signal
        else
          let m := ext.mel_spectrogram cfg.sg_cfg signal
          if cfg.to_db_scale then ext.spectrogram_to_db cfg.top_db m else m
      let mel1 := ext.permute (ext.squeeze mel0)
      let mel2 := if cfg.standardize then ext.standardize mel1 else mel1
      let mel3 :=
        if cfg.delta then ext.stack3 mel2 (ext.torchdelta mel2) (ext.torchdelta2 mel2)
        else ext.expand3 mel2
      let fs2 :=
        if cfg.cache then (fs.makedirs image_path.parent).save image_path (FileData.tensor mel3)
        else fs
      Except.ok ⟨⟨some signal, some sr, some mel3, item, none⟩, fs2, [p]⟩
    | none =>
      Except.ok ⟨⟨some signal, some sr, none, item, none⟩, fs, [p]⟩
  | _ => Except.error OpenErr.loadError

/-- `AudioList.open` (data.py lines 159-196).  `audio_extensions` is a
parameter: `AUDIO_EXTENSIONS` is defined in the `audio` module, which is
not part of `src/` (modelled from the spec as a list of lowercase
extension strings). -/
def AudioList.openA (al : AudioList) (ext : Ext) (audio_extensions : List String)
    (item : Path) (fs : FS) : Except OpenErr OpenResult :=
  let p := resolvePath fs al.path item
  if !fs.exists p then Except.error OpenErr.fileNotFound
  else if !(audio_extensions.any (fun e => strEndsWith (strLower p.str) e)) then
    Except.error OpenErr.invalidAudio
  else
    let cfg := al.config
    if cfg.use_spectro then
      match cfg.cache_dir with
      | none => Except.error OpenErr.typeError
      | some cd =>
        let image_path := imagePath al.path cfg cd p
        if cfg.cache && !cfg.force_cache && fs.exists image_path then
          match fs.lookup image_path with
          | some (FileData.tensor t) =>
            let mel := ext.squeeze t
            let mel2 := if cfg.standardize then ext.standardize mel else mel
            Except.ok ⟨⟨none, none, some mel2, item, cfg.max_to_pad⟩, fs, []⟩
          | _ => Except.error OpenErr.loadError
        else openCompute ext cfg p item (some image_path) fs
    else openCompute ext cfg p item none fs

/-- Errors raised by `AudioList.get`. -/
inductive GetErr where
  | indexError
  | openE (e : OpenErr)
  | cantHandle
deriving DecidableEq

/-- `AudioList.get` (data.py lines 198-207). -/
def AudioList.getIdx (al : AudioList) (ext : Ext) (audio_extensions : List String)
    (i : Nat) (fs : FS) : Except GetErr OpenResult :=
  match al.items.get? i with
  | none => Except.error GetErr.indexError
  | some it =>
    match it with
    | AListItem.audio a => Except.ok ⟨a, fs, []⟩
    | AListItem.path p =>
      (al.openA ext audio_extensions (al.path.join p) fs).mapError GetErr.openE
    | AListItem.strPath s =>
      (al.openA ext audio_extensions (al.path.join (Path.ofString s)) fs).mapError GetErr.openE
    | AListItem.other => Except.error GetErr.cantHandle

/-! ## Concrete fixtures used by witnesses and counterexamples -/

instance : Inhabited Path := ⟨⟨false, []⟩⟩

/-- A concrete instantiation of the external transforms, used to
evaluate witnesses. -/
def ext0 : Ext where
  tfm_resample := fun s _ _ => s
  tfm_chop_silence := fun s _ _ _ => [s]
  mel_spectrogram := fun _ _ => [[1]]
  spectrogram_to_db := fun _ t => t
  mfcc_transform := fun _ _ _ _ => [[2]]
  pad_trim := fun _ s => s
  squeeze := id
  permute := id
  standardize := fun t => [0] :: t
  torchdelta := id
  torchdelta2 := id
  stack3 := fun a _ _ => a
  expand3 := id

/-- An absolute base path for witness runs. -/
def rootW : Path := ⟨true, ["data"]⟩

/-- A relative audio item path. -/
def itemWa : Path := ⟨false, ["a.wav"]⟩

/-- A configuration with an absolute cache directory, as
`AudioList.__init__` produces for an absolute list path. -/
def cfgW : AudioTransformConfig :=
  { cache_dir := some ⟨true, ["data", ".cache"]⟩ }

/-- The resolved witness item path `rootW / itemWa`. -/
def ipW : Path := rootW.join itemWa

/-- Witness label. -/
def labW : Label := "lab"

/-- Witness configuration with segmentation enabled. -/
def cfgW9 : AudioTransformConfig := { cfgW with segment_size := some 1000 }

/-- Populated cache directory for the witness resample run. -/
def markRS9 : Path :=
  (cacheMark cfgW9 "rs" [ipW.str, pyOptNat cfgW9.resample_to]).getD default

/-- Populated cache directory for the witness silence-removal run. -/
def markSH9 : Path :=
  (cacheMark cfgW9 "sh"
    [ipW.str, natStr cfgW9.silence_threshold, natStr cfgW9.silence_padding]).getD default

/-- Populated cache directory for the witness segmentation run. -/
def markS9 : Path := (cacheMark cfgW9 "s" [ipW.str, natStr 16000, labW]).getD default

/-- A filesystem holding the witness audio file and a populated cache for
each pre-processing operation. -/
def fsW9 : FS :=
  ⟨[(ipW, FileData.wav [1, 2] 16000),
    (markRS9.child "0.wav", FileData.wav [1, 2] 16000),
    (markSH9.child "0.wav", FileData.wav [1, 2] 16000),
    (markS9.child "0.wav", FileData.wav [1, 2] 16000)], []⟩

/-- A ready-made `AudioItem` for the C7 witness. -/
def aW : AudioItem := { path := itemWa }

/-- Witness list exercising all four `get` branches. -/
def alW7 : AudioList :=
  AudioList.mkInit
    [AListItem.audio aW, AListItem.path itemWa, AListItem.strPath "a.wav",
     AListItem.other] rootW cfgW9

/-- The witness extension list standing for `AUDIO_EXTENSIONS`. -/
def audioExtsW : List String := [".wav", ".mp3"]

/-- The list for the C8 witness. -/
def alW8 : AudioList := AudioList.mkInit [] rootW cfgW9

/-- The spectrogram cache file of the C8 witness item. -/
def img8 : Path := imagePath alW8.path alW8.config ⟨true, ["data", ".cache"]⟩ ipW

/-- Filesystem with the witness audio file and its cached spectrogram. -/
def fsW8 : FS :=
  ⟨[(ipW, FileData.wav [1, 2] 16000), (img8, FileData.tensor [[7]])], []⟩

/-- Value of a little-endian digit list; inverse of `natDigits`. -/
def undigits : List Nat → Nat
  | [] => 0
  | d :: ds => d + 10 * undigits ds

/-- The file at `f` is a wav with sample rate `sr` and a non-empty
signal. -/
def cachedWavNonempty (fs : FS) (sr : Nat) (f : Path) : Bool :=
  match fs.lookup f with
  | some (FileData.wav s sr2) => sr2 == sr && decide (1 ≤ s.length)
  | _ => false

/-- A relative list path for the C6 counterexample. -/
def relRootW : Path := ⟨false, ["d"]⟩

/-- The C6 counterexample list: a relative path and the default
configuration, whose cache directory becomes the relative `d/.cache`. -/
def alC6 : AudioList := AudioList.mkInit [] relRootW {}

/-- The C6 counterexample item and filesystem. -/
def itemC6 : Path := ⟨false, ["x.wav"]⟩

/-- A filesystem holding only the relative audio file `d/x.wav`. -/
def fsC6 : FS := ⟨[(⟨false, ["d", "x.wav"]⟩, FileData.wav [1, 2] 16000)], []⟩

/-- One pre-processing stage written as plain recursion: apply the
operation to each item in order, threading the filesystem, and
concatenate the outputs.  Used as the specification side of the
refinement proof for `_pre_process`. -/
def stageSpec
    (op : (Path × Label) → FS → Option (FS × List (Path × Label) × List Path)) :
    List (Path × Label) → FS → Option (FS × List (Path × Label))
  | [], fs => some (fs, [])
  | it :: rest, fs =>
    match op it fs with
    | none => none
    | some (fs2, out, _) =>
      match stageSpec op rest fs2 with
      | none => none
      | some (fs3, outs) => some (fs3, out ++ outs)

/-- A filesystem whose only audio file has a zero-length signal. -/
def fsC4 : FS := ⟨[(ipW, FileData.wav [] 1000)], []⟩

/-! ## Theorems and helper lemmas -/

/-- Labels attached by `list(zip(files, [label]*len(files)))`. -/
theorem all_label (files : List Path) (l : Label) :
    (files.map (fun g => (g, l))).all (fun pr => pr.2 == l) = true := by
  simp [List.all_eq_true]

/-- Claim C9: label preservation.  For every item `(path, label)`, each of
`resample_item`, `remove_silence` and `segment_items` returns a list of
`(file, label)` pairs in which every pair carries exactly the original
label. -/
theorem claim9_label_preservation (ext : Ext) (item : Path × Label)
    (cfg : AudioTransformConfig) (path : Path) :
    (∀ fs fs2 out lds, resample_item ext item cfg path fs = some (fs2, out, lds) →
      out.all (fun pr => pr.2 == item.2) = true)
    ∧ (∀ fs fs2 out lds, remove_silence ext item cfg path fs = some (fs2, out, lds) →
      out.all (fun pr => pr.2 == item.2) = true)
    ∧ (∀ fs fs2 out lds, segment_items item cfg path fs = some (fs2, out, lds) →
      out.all (fun pr => pr.2 == item.2) = true) := by
  refine ⟨?_, ?_, ?_⟩ <;> intro fs fs2 out lds h
  all_goals first
    | unfold resample_item at h
    | unfold remove_silence at h
    | unfold segment_items at h
  all_goals try dsimp only at h
  all_goals repeat' split at h
  all_goals
    first
    | (simp only [Option.some.injEq, Prod.mk.injEq] at h
       obtain ⟨rfl, rfl, rfl⟩ := h
       exact all_label _ _)
    | (rw [Option.map_eq_some'] at h
       obtain ⟨r, hmk, h2⟩ := h
       simp only [Prod.mk.injEq] at h2
       obtain ⟨rfl, rfl, rfl⟩ := h2
       exact all_label _ _)
    | exact Option.noConfusion h








/-- Witness for C9 at a concrete cache-hit run of each operation. -/
theorem claim9_witness :
    (resample_item ext0 (itemWa, labW) cfgW9 rootW fsW9).map
        (fun r => r.2.1.all (fun pr => pr.2 == labW)) = some true
    ∧ (remove_silence ext0 (itemWa, labW) cfgW9 rootW fsW9).map
        (fun r => r.2.1.all (fun pr => pr.2 == labW)) = some true
    ∧ (segment_items (itemWa, labW) cfgW9 rootW fsW9).map
        (fun r => r.2.1.all (fun pr => pr.2 == labW)) = some true := by
  obtain ⟨h1, h2, h3⟩ := claim9_label_preservation ext0 (itemWa, labW) cfgW9 rootW
  refine ⟨?_, ?_, ?_⟩
  · rcases hres : resample_item ext0 (itemWa, labW) cfgW9 rootW fsW9 with _ | r
    · exact absurd hres (by decide)
    · rw [Option.map_some']
      exact congrArg some (h1 fsW9 r.1 r.2.1 r.2.2 (by rw [hres]))
  · rcases hres : remove_silence ext0 (itemWa, labW) cfgW9 rootW fsW9 with _ | r
    · exact absurd hres (by decide)
    · rw [Option.map_some']
      exact congrArg some (h2 fsW9 r.1 r.2.1 r.2.2 (by rw [hres]))
  · rcases hres : segment_items (itemWa, labW) cfgW9 rootW fsW9 with _ | r
    · exact absurd hres (by decide)
    · rw [Option.map_some']
      exact congrArg some (h3 fsW9 r.1 r.2.1 r.2.2 (by rw [hres]))

/-- Claim C7: for every index `i`, `AudioList.get` returns
`self.items[i]` unchanged when it is already an `AudioItem`, returns
`open(self.path/item)` when it is a `Path` or string, and raises the
unsupported-type error for any other item type. -/
theorem claim7_get_dispatch (al : AudioList) (ext : Ext) (exts : List String)
    (i : Nat) (fs : FS) :
    (∀ a, al.items.get? i = some (AListItem.audio a) →
      al.getIdx ext exts i fs = Except.ok ⟨a, fs, []⟩)
    ∧ (∀ p, al.items.get? i = some (AListItem.path p) →
      al.getIdx ext exts i fs =
        (al.openA ext exts (al.path.join p) fs).mapError GetErr.openE)
    ∧ (∀ s, al.items.get? i = some (AListItem.strPath s) →
      al.getIdx ext exts i fs =
        (al.openA ext exts (al.path.join (Path.ofString s)) fs).mapError GetErr.openE)
    ∧ (al.items.get? i = some AListItem.other →
      al.getIdx ext exts i fs = Except.error GetErr.cantHandle) := by
  refine ⟨fun a ha => ?_, fun p hp => ?_, fun s hs => ?_, fun ho => ?_⟩ <;>
    unfold AudioList.getIdx
  · rw [ha]
  · rw [hp]
  · rw [hs]
  · rw [ho]




/-- Witness for C7 exercising each branch at a concrete index. -/
theorem claim7_witness :
    alW7.getIdx ext0 audioExtsW 0 fsW9 = Except.ok ⟨aW, fsW9, []⟩
    ∧ alW7.getIdx ext0 audioExtsW 1 fsW9 =
      (alW7.openA ext0 audioExtsW (alW7.path.join itemWa) fsW9).mapError GetErr.openE
    ∧ alW7.getIdx ext0 audioExtsW 2 fsW9 =
      (alW7.openA ext0 audioExtsW (alW7.path.join (Path.ofString "a.wav")) fsW9).mapError
        GetErr.openE
    ∧ alW7.getIdx ext0 audioExtsW 3 fsW9 = Except.error GetErr.cantHandle :=
  ⟨(claim7_get_dispatch alW7 ext0 audioExtsW 0 fsW9).1 aW rfl,
   (claim7_get_dispatch alW7 ext0 audioExtsW 1 fsW9).2.1 itemWa rfl,
   (claim7_get_dispatch alW7 ext0 audioExtsW 2 fsW9).2.2.1 "a.wav" rfl,
   (claim7_get_dispatch alW7 ext0 audioExtsW 3 fsW9).2.2.2 rfl⟩

/-- The resolved path exists exactly when the item path or its rebased
version exists. -/
theorem exists_resolve (fs : FS) (path q : Path) :
    fs.exists (resolvePath fs path q) = (fs.exists q || fs.exists (path.join q)) := by
  unfold resolvePath
  cases hq : fs.exists q <;> simp [hq]

/-- The load-and-compute tail raises neither of the two guard errors. -/
theorem openCompute_not_found (ext : Ext) (cfg : AudioTransformConfig)
    (p item : Path) (io : Option Path) (fs : FS) :
    openCompute ext cfg p item io fs ≠ Except.error OpenErr.fileNotFound
    ∧ openCompute ext cfg p item io fs ≠ Except.error OpenErr.invalidAudio := by
  unfold openCompute
  constructor <;> (repeat' split) <;> simp

/-- Claim C3: `AudioList.open` raises `FileNotFoundError` if and only if
neither the item path nor `self.path/item` exists; when one of them
exists, it raises the invalid-audio error if and only if the resolved
path does not end, after lowercasing, with a recognised audio
extension. -/
theorem claim3_open_errors (al : AudioList) (ext : Ext) (exts : List String)
    (item : Path) (fs : FS) :
    (al.openA ext exts item fs = Except.error OpenErr.fileNotFound
      ↔ fs.exists item = false ∧ fs.exists (al.path.join item) = false)
    ∧ ((fs.exists item = true ∨ fs.exists (al.path.join item) = true) →
      (al.openA ext exts item fs = Except.error OpenErr.invalidAudio
        ↔ exts.any (fun e => strEndsWith (strLower (resolvePath fs al.path item).str) e)
            = false)) := by
  have hres := exists_resolve fs al.path item
  cases hex : fs.exists (resolvePath fs al.path item) with
  | false =>
    rw [hex] at hres
    have hboth := Bool.or_eq_false_iff.mp hres.symm
    have hopen : al.openA ext exts item fs = Except.error OpenErr.fileNotFound := by
      unfold AudioList.openA
      dsimp only
      rw [hex]
      rfl
    refine ⟨by simp [hopen, hboth.1, hboth.2], fun hor => ?_⟩
    rcases hor with h | h
    · rw [hboth.1] at h
      exact Bool.noConfusion h
    · rw [hboth.2] at h
      exact Bool.noConfusion h
  | true =>
    rw [hex] at hres
    have hnb : ¬(fs.exists item = false ∧ fs.exists (al.path.join item) = false) := by
      intro hb
      rw [hb.1, hb.2] at hres
      exact Bool.noConfusion hres
    cases hext : exts.any
        (fun e => strEndsWith (strLower (resolvePath fs al.path item).str) e) with
    | false =>
      have hopen : al.openA ext exts item fs = Except.error OpenErr.invalidAudio := by
        unfold AudioList.openA
        dsimp only
        rw [hex, hext]
        rfl
      exact ⟨by simp [hopen, hnb], fun _ => by simp [hopen]⟩
    | true =>
      have hni : al.openA ext exts item fs ≠ Except.error OpenErr.fileNotFound
          ∧ al.openA ext exts item fs ≠ Except.error OpenErr.invalidAudio := by
        unfold AudioList.openA
        dsimp only
        rw [hex, hext]
        constructor <;> (repeat' split) <;>
          first
          | exact (openCompute_not_found _ _ _ _ _ _).1
          | exact (openCompute_not_found _ _ _ _ _ _).2
          | simp_all
      refine ⟨by simp [hni.1, hnb], fun _ => ?_⟩
      simp [hni.2, hext]

/-- Witness for C3 at a concrete filesystem in which the rebased item
path exists. -/
theorem claim3_witness :
    (alW7.openA ext0 audioExtsW itemWa fsW9 = Except.error OpenErr.fileNotFound
      ↔ fsW9.exists itemWa = false ∧ fsW9.exists (alW7.path.join itemWa) = false)
    ∧ (alW7.openA ext0 audioExtsW itemWa fsW9 = Except.error OpenErr.invalidAudio
      ↔ audioExtsW.any
          (fun e => strEndsWith (strLower (resolvePath fsW9 alW7.path itemWa).str) e)
          = false) :=
  ⟨(claim3_open_errors alW7 ext0 audioExtsW itemWa fsW9).1,
   (claim3_open_errors alW7 ext0 audioExtsW itemWa fsW9).2 (Or.inr (by decide))⟩

/-- A path with a file on it exists. -/
theorem exists_of_lookup (fs : FS) (p : Path) (d : FileData)
    (h : fs.lookup p = some d) : fs.exists p = true := by
  unfold FS.lookup at h
  rw [Option.map_eq_some'] at h
  obtain ⟨e, he, _⟩ := h
  have hmem := List.mem_of_find?_eq_some he
  have hpred := List.find?_some he
  have hp : e.1 = p := by simpa using hpred
  unfold FS.exists
  rw [Bool.or_eq_true, List.any_eq_true]
  exact Or.inl ⟨e, hmem, by
    rw [hp]
    unfold Path.isAncestorOrSelf
    simp [List.isPrefixOf_iff_prefix]⟩

/-- Claim C8: with `use_spectro` and `cache` on, `force_cache` off, and
the spectrogram cache file present, `AudioList.open` returns an
`AudioItem` carrying only the cached (optionally standardized)
spectrogram — no raw signal, no sample rate — and performs no audio
load and no filesystem change. -/
theorem claim8_cached_open (al : AudioList) (ext : Ext) (exts : List String)
    (item : Path) (fs : FS) (cd : Path) (t : Tensor)
    (hex : fs.exists (resolvePath fs al.path item) = true)
    (hok : exts.any (fun e => strEndsWith (strLower (resolvePath fs al.path item).str) e)
      = true)
    (hspec : al.config.use_spectro = true)
    (hcache : al.config.cache = true)
    (hforce : al.config.force_cache = false)
    (hcd : al.config.cache_dir = some cd)
    (hfile : fs.lookup (imagePath al.path al.config cd (resolvePath fs al.path item))
      = some (FileData.tensor t)) :
    al.openA ext exts item fs =
      Except.ok ⟨⟨none, none,
        some (if al.config.standardize then ext.standardize (ext.squeeze t)
          else ext.squeeze t),
        item, al.config.max_to_pad⟩, fs, []⟩ := by
  have himg := exists_of_lookup _ _ _ hfile
  unfold AudioList.openA
  dsimp only
  simp [hex, hok, hspec, hcache, hforce, hcd, himg, hfile]




/-- Witness for C8 at a concrete cache hit. -/
theorem claim8_witness :
    alW8.openA ext0 audioExtsW itemWa fsW8 =
      Except.ok ⟨⟨none, none,
        some (if alW8.config.standardize then ext0.standardize (ext0.squeeze [[7]])
          else ext0.squeeze [[7]]),
        itemWa, alW8.config.max_to_pad⟩, fsW8, []⟩ :=
  claim8_cached_open alW8 ext0 audioExtsW itemWa fsW8 ⟨true, ["data", ".cache"]⟩ [[7]]
    (by decide) (by decide) (by decide) (by decide) (by decide) (by decide) (by decide)

/-- All digits produced by `natDigitsAux` are below ten. -/
theorem natDigitsAux_lt_ten :
    ∀ fuel n, ∀ d ∈ natDigitsAux fuel n, d < 10 := by
  intro fuel
  induction fuel with
  | zero => intro n d hd; simp [natDigitsAux] at hd
  | succ fuel ih =>
    intro n d hd
    unfold natDigitsAux at hd
    split at hd
    · simp at hd
      omega
    · rcases List.mem_cons.mp hd with h | h
      · subst h
        exact Nat.mod_lt _ (by omega)
      · exact ih _ _ h

/-- With enough fuel, `undigits` recovers the input of `natDigitsAux`. -/
theorem undigits_natDigitsAux :
    ∀ fuel n, n < fuel → undigits (natDigitsAux fuel n) = n := by
  intro fuel
  induction fuel with
  | zero => intro n h; omega
  | succ fuel ih =>
    intro n h
    unfold natDigitsAux
    split
    · simp [undigits]
    · rename_i hn
      have h10 : 10 ≤ n := by omega
      have : n / 10 < fuel := by
        have := Nat.div_lt_self (by omega : 0 < n) (by omega : 1 < 10)
        omega
      simp [undigits, ih _ this]
      omega

/-- `natDigits` is injective. -/
theorem natDigits_inj {m n : Nat} (h : natDigits m = natDigits n) : m = n := by
  have hm := undigits_natDigitsAux (m + 1) m (by omega)
  have hn := undigits_natDigitsAux (n + 1) n (by omega)
  unfold natDigits at h
  rw [← hm, ← hn, h]

/-- `Nat.digitChar` is injective below ten. -/
theorem digitChar_inj_lt :
    ∀ a, a < 10 → ∀ b, b < 10 → Nat.digitChar a = Nat.digitChar b → a = b := by
  decide

/-- `Nat.digitChar` is injective on lists of digits. -/
theorem map_digitChar_inj :
    ∀ (lm ln : List Nat), (∀ d ∈ lm, d < 10) → (∀ d ∈ ln, d < 10) →
      lm.map Nat.digitChar = ln.map Nat.digitChar → lm = ln := by
  intro lm
  induction lm with
  | nil =>
    intro ln _ _ hc
    cases ln with
    | nil => rfl
    | cons b bs => simp at hc
  | cons a as ih =>
    intro ln hlm hln hc
    cases ln with
    | nil => simp at hc
    | cons b bs =>
      simp only [List.map_cons, List.cons.injEq] at hc
      have hab := digitChar_inj_lt a (hlm a (by simp)) b (hln b (by simp)) hc.1
      have htail := ih bs (fun d hd => hlm d (by simp [hd]))
        (fun d hd => hln d (by simp [hd])) hc.2
      rw [hab, htail]

/-- Python decimal rendering of naturals is injective. -/
theorem natStr_inj {m n : Nat} (h : natStr m = natStr n) : m = n := by
  unfold natStr at h
  have hchars : (natDigits m).reverse.map Nat.digitChar
      = (natDigits n).reverse.map Nat.digitChar := by
    simpa using congrArg String.data h
  have hm10 : ∀ d ∈ (natDigits m).reverse, d < 10 := fun d hd =>
    natDigitsAux_lt_ten (m + 1) m d (List.mem_reverse.mp hd)
  have hn10 : ∀ d ∈ (natDigits n).reverse, d < 10 := fun d hd =>
    natDigitsAux_lt_ten (n + 1) n d (List.mem_reverse.mp hd)
  have hrev := map_digitChar_inj _ _ hm10 hn10 hchars
  apply natDigits_inj
  simpa using congrArg List.reverse hrev

/-- `find?` over the in-place update used by `save`, away from the
written key. -/
theorem find?_save_map (p q : Path) (d : FileData) (hqp : q ≠ p) :
    ∀ (l : List (Path × FileData)),
      (l.map (fun e => if e.1 == p then (p, d) else e)).find? (fun e => e.1 == q)
        = l.find? (fun e => e.1 == q) := by
  have hpq : ((p, d).1 == q) = false := by
    simpa using fun hc => hqp hc.symm
  intro l
  induction l with
  | nil => rfl
  | cons e2 es ih =>
    by_cases h2 : (e2.1 == p) = true
    · have h2q : (e2.1 == q) = false := by
        have hep : e2.1 = p := by simpa using h2
        rw [hep]
        simpa using fun hc => hqp hc.symm
      rw [List.map_cons, if_pos h2]
      simp only [List.find?, hpq, h2q]
      exact ih
    · by_cases hq : (e2.1 == q) = true
      · rw [List.map_cons, if_neg h2]
        simp only [List.find?, hq]
      · have hqf : (e2.1 == q) = false := by simpa using hq
        rw [List.map_cons, if_neg h2]
        simp only [List.find?, hqf]
        exact ih

/-- `find?` over the in-place update used by `save`, at the written key. -/
theorem find?_save_map_self (p : Path) (d : FileData) :
    ∀ (l : List (Path × FileData)), l.any (fun e => e.1 == p) = true →
      (l.map (fun e => if e.1 == p then (p, d) else e)).find? (fun e => e.1 == p)
        = some (p, d) := by
  intro l
  induction l with
  | nil => intro h; simp at h
  | cons e2 es ih =>
    intro hany
    by_cases h2 : (e2.1 == p) = true
    · rw [List.map_cons, if_pos h2]
      simp only [List.find?, beq_self_eq_true]
    · have h2f : (e2.1 == p) = false := by simpa using h2
      rw [List.map_cons, if_neg h2]
      simp only [List.find?, h2f]
      apply ih
      simpa [h2f] using hany

/-- `lookup` after `save` at the written path. -/
theorem lookup_save_self (fs : FS) (p : Path) (d : FileData) :
    (fs.save p d).lookup p = some d := by
  unfold FS.save FS.lookup
  split
  · rename_i hany
    rw [find?_save_map_self p d fs.files hany]
    rfl
  · rename_i hany
    rw [List.find?_append]
    have hnone : fs.files.find? (fun e => e.1 == p) = none := by
      rw [List.find?_eq_none]
      intro e he hcon
      rw [Bool.not_eq_true, List.any_eq_false] at hany
      exact absurd hcon (hany e he)
    simp [hnone, List.find?]

/-- `lookup` after `save` at any other path. -/
theorem lookup_save_ne (fs : FS) (p q : Path) (d : FileData) (h : q ≠ p) :
    (fs.save p d).lookup q = fs.lookup q := by
  unfold FS.save FS.lookup
  split
  · rw [find?_save_map p q d h fs.files]
  · rw [List.find?_append]
    have hlast : [(p, d)].find? (fun e => e.1 == q) = none := by
      rw [List.find?_eq_none]
      intro e he hcon
      have hed : e = (p, d) := by simpa using he
      rw [hed] at hcon
      have hpq : p = q := by simpa using hcon
      exact h hpq.symm
    rw [hlast]
    simp

/-- `lookup` ignores `makedirs`. -/
theorem lookup_makedirs (fs : FS) (p q : Path) :
    (fs.makedirs p).lookup q = fs.lookup q := by
  unfold FS.makedirs FS.lookup
  split <;> rfl

/-- Right cancellation for string concatenation. -/
theorem string_append_right_cancel {a b c : String} (h : a ++ c = b ++ c) :
    a = b := by
  cases a with
  | mk la =>
    cases b with
    | mk lb =>
      have hd := congrArg String.data h
      simp only [String.data_append] at hd
      exact congrArg String.mk (List.append_cancel_right hd)

/-- `Path.child` is injective in the segment name. -/
theorem child_inj {mark : Path} {a b : String} (h : mark.child a = mark.child b) :
    a = b := by
  unfold Path.child at h
  have hsegs := congrArg Path.segs h
  simp only at hsegs
  have := List.append_cancel_left hsegs
  simpa using this

/-- The cache filenames `"{i}.wav"` are distinct for distinct indices. -/
theorem cache_fn_inj {mark : Path} {j k : Nat}
    (h : mark.child (natStr j ++ ".wav") = mark.child (natStr k ++ ".wav")) :
    j = k :=
  natStr_inj (string_append_right_cancel (child_inj h))

/-- Invariant of the write loop of `make_cache`: every recorded file
holds a non-empty wav at the final filesystem, and is named after an
index below the running bound. -/
theorem make_cache_fold_inv (mark : Path) (sr : Nat) :
    ∀ (sigs : List Sig) (k : Nat) (acc : FS × List Path),
      (∀ f ∈ acc.2,
        (∃ s, acc.1.lookup f = some (FileData.wav s sr) ∧ 1 ≤ s.length)
          ∧ ∃ j, j < k ∧ f = mark.child (natStr j ++ ".wav")) →
      ∀ f ∈ ((List.enumFrom k sigs).foldl
          (fun acc is =>
            if is.2.length < 1 then acc
            else
              (acc.1.save (mark.child (natStr is.1 ++ ".wav")) (FileData.wav is.2 sr),
               acc.2 ++ [mark.child (natStr is.1 ++ ".wav")])) acc).2,
        (∃ s, ((List.enumFrom k sigs).foldl
            (fun acc is =>
              if is.2.length < 1 then acc
              else
                (acc.1.save (mark.child (natStr is.1 ++ ".wav")) (FileData.wav is.2 sr),
                 acc.2 ++ [mark.child (natStr is.1 ++ ".wav")])) acc).1.lookup f
            = some (FileData.wav s sr) ∧ 1 ≤ s.length)
          ∧ ∃ j, j < k + sigs.length ∧ f = mark.child (natStr j ++ ".wav") := by
  intro sigs
  induction sigs with
  | nil =>
    intro k acc hinv f hf
    simp only [List.enumFrom, List.foldl] at hf ⊢
    simpa using hinv f hf
  | cons s rest ih =>
    intro k acc hinv
    have hstep : ∀ f ∈ (if s.length < 1 then acc
        else (acc.1.save (mark.child (natStr k ++ ".wav")) (FileData.wav s sr),
          acc.2 ++ [mark.child (natStr k ++ ".wav")])).2,
        (∃ s2, (if s.length < 1 then acc
          else (acc.1.save (mark.child (natStr k ++ ".wav")) (FileData.wav s sr),
            acc.2 ++ [mark.child (natStr k ++ ".wav")])).1.lookup f
            = some (FileData.wav s2 sr) ∧ 1 ≤ s2.length)
          ∧ ∃ j, j < k + 1 ∧ f = mark.child (natStr j ++ ".wav") := by
      intro f hf
      by_cases hlen : s.length < 1
      · rw [if_pos hlen] at hf ⊢
        obtain ⟨hw, j, hj, hfj⟩ := hinv f hf
        exact ⟨hw, j, by omega, hfj⟩
      · rw [if_neg hlen] at hf ⊢
        rcases List.mem_append.mp hf with hold | hnew
        · obtain ⟨⟨s0, hl, hs0⟩, j, hj, hfj⟩ := hinv f hold
          have hne : f ≠ mark.child (natStr k ++ ".wav") := by
            intro hc
            rw [hfj] at hc
            have := cache_fn_inj hc
            omega
          refine ⟨⟨s0, ?_, hs0⟩, j, by omega, hfj⟩
          rw [lookup_save_ne _ _ _ _ hne]
          exact hl
        · have hfeq : f = mark.child (natStr k ++ ".wav") := by simpa using hnew
          refine ⟨⟨s, ?_, by omega⟩, k, by omega, hfeq⟩
          rw [hfeq, lookup_save_self]
    intro f hf
    rw [List.enumFrom] at hf ⊢
    rw [List.foldl_cons] at hf ⊢
    have := ih (k + 1) _ hstep f hf
    obtain ⟨hw, j, hj, hfj⟩ := this
    exact ⟨hw, j, by simpa [Nat.add_assoc, Nat.add_comm 1 rest.length] using hj, hfj⟩

/-- The slices of `segment_items` concatenate back to the signal. -/
theorem segSlices_join (ss : Nat) (hss : 0 < ss) :
    ∀ (m : Nat) (sig : List Int), sig.length / ss = m →
      (segSlices sig ss).flatten = sig := by
  intro m
  induction m with
  | zero =>
    intro sig hm
    have hlen : sig.length < ss := by
      by_contra hc
      push_neg at hc
      have h1 : 1 ≤ sig.length / ss := (Nat.one_le_div_iff hss).mpr hc
      rw [hm] at h1
      omega
    unfold segSlices
    rw [hm, show List.range 1 = [0] from rfl]
    simp only [List.map_cons, List.map_nil, List.flatten_cons, List.flatten_nil,
      List.append_nil, Nat.zero_mul, List.drop_zero, Nat.sub_zero]
    have hmin : (0 + 1) * ss ⊓ sig.length = sig.length := by omega
    rw [hmin, List.take_length]
  | succ m ih =>
    intro sig hm
    have hle : ss ≤ sig.length := by
      rcases Nat.lt_or_ge sig.length ss with h | h
      · rw [Nat.div_eq_of_lt h] at hm
        omega
      · exact h
    have hdrop : (sig.drop ss).length / ss = m := by
      rw [List.length_drop]
      have := Nat.div_eq_sub_div hss hle
      omega
    have ihd := ih (sig.drop ss) hdrop
    unfold segSlices at ihd ⊢
    rw [hdrop] at ihd
    rw [hm]
    rw [List.range_succ_eq_map, List.map_cons, List.map_map, List.flatten_cons]
    have hmap : (List.map
          ((fun i => (sig.drop (i * ss)).take (min ((i + 1) * ss) sig.length - i * ss))
            ∘ Nat.succ) (List.range (m + 1)))
        = List.map
          (fun i => ((sig.drop ss).drop (i * ss)).take
            (min ((i + 1) * ss) (sig.drop ss).length - i * ss)) (List.range (m + 1)) := by
      apply List.map_congr_left
      intro i _
      simp only [Function.comp_apply, List.drop_drop, List.length_drop,
        Nat.succ_eq_add_one]
      have e1 : (i + 1) * ss = i * ss + ss := by ring
      have e2 : (i + 1 + 1) * ss = i * ss + ss + ss := by ring
      rw [e1, e2]
      congr 1
      · generalize i * ss = a
        omega
      · congr 1
        omega
    rw [hmap, ihd]
    simp only [Nat.zero_mul, List.drop_zero, Nat.sub_zero]
    rw [show (0 + 1) * ss = ss from by ring, Nat.min_eq_left hle,
      List.take_append_drop]

/-- Claim C10: segmentation is lossless — for a non-empty signal and a
positive segment size the slices of `segment_items` concatenate back to
the signal — and `make_cache` writes only non-empty segments, so every
cached file returned by it holds a non-empty signal. -/
theorem claim10_segmentation_lossless :
    (∀ (sig : Sig) (segsize : Nat), 0 < segsize → sig ≠ [] →
      (segSlices sig segsize).flatten = sig)
    ∧ (∀ (sigs : List Sig) (sr : Nat) (cfg : AudioTransformConfig)
        (ct : String) (hp : List String) (fs fs2 : FS) (files : List Path),
        make_cache sigs sr cfg ct hp fs = some (fs2, files) →
        files.all (cachedWavNonempty fs2 sr) = true) := by
  constructor
  · intro sig segsize h1 _
    exact segSlices_join segsize h1 (sig.length / segsize) sig rfl
  · intro sigs sr cfg ct hp fs fs2 files h
    unfold make_cache at h
    rcases hcm : cacheMark cfg ct hp with _ | mark
    · rw [hcm] at h
      exact Option.noConfusion h
    · rw [hcm] at h
      dsimp only at h
      split at h
      · simp only [Option.some.injEq, Prod.mk.injEq] at h
        obtain ⟨hfs2, hfiles⟩ := h
        rw [List.all_eq_true]
        intro f hf
        have hbase : ∀ g ∈ (([] : List Path)), (∃ s,
            (fs.makedirs mark).lookup g = some (FileData.wav s sr) ∧ 1 ≤ s.length)
            ∧ ∃ j, j < 0 ∧ g = mark.child (natStr j ++ ".wav") := by
          intro g hg
          simp at hg
        have hfold := make_cache_fold_inv mark sr sigs 0 (fs.makedirs mark, []) hbase
        rw [← hfiles] at hf
        have hrw : sigs.enum = List.enumFrom 0 sigs := rfl
        rw [hrw] at hf
        obtain ⟨⟨s0, hl, hs0⟩, _⟩ := hfold f hf
        unfold cachedWavNonempty
        rw [← hfs2, hrw, hl]
        simp [hs0]
      · simp only [Option.some.injEq, Prod.mk.injEq] at h
        rw [← h.2]
        rfl

/-- Witness for C10: a concrete segmentation and a concrete
`make_cache` run with one empty and one non-empty signal. -/
theorem claim10_witness :
    (segSlices [1, 2, 3] 2).flatten = [1, 2, 3]
    ∧ (make_cache [[5], []] 16000 cfgW9 "s" [ipW.str] ⟨[], []⟩).map
        (fun r => r.2.all (cachedWavNonempty r.1 16000)) = some true := by
  constructor
  · exact (claim10_segmentation_lossless).1 [1, 2, 3] 2 (by decide) (by decide)
  · rcases hmk : make_cache [[5], []] 16000 cfgW9 "s" [ipW.str] ⟨[], []⟩ with _ | r
    · exact absurd hmk (by decide)
    · rw [Option.map_some']
      refine congrArg some ((claim10_segmentation_lossless).2 [[5], []] 16000 cfgW9
        "s" [ipW.str] ⟨[], []⟩ r.1 r.2 ?_)
      rw [hmk]

/-- A direct child lies strictly under its parent directory. -/
theorem child_isUnder (x : Path) (s : String) : (x.child s).isUnder x = true := by
  unfold Path.child Path.isUnder
  simp [List.isPrefixOf_iff_prefix]

/-- A grandchild lies strictly under its grandparent directory. -/
theorem child_child_isUnder (cd : Path) (a b : String) :
    ((cd.child a).child b).isUnder cd = true := by
  unfold Path.child Path.isUnder
  simp [List.isPrefixOf_iff_prefix, List.append_assoc]

/-- Frame property of the write loop of `make_cache`: paths not in the
returned file list keep their contents, and recorded files persist. -/
theorem make_cache_fold_frame (mark : Path) (sr : Nat) :
    ∀ (es : List (Nat × Sig)) (acc : FS × List Path),
      (∀ q, q ∉ (es.foldl
          (fun acc is =>
            if is.2.length < 1 then acc
            else
              (acc.1.save (mark.child (natStr is.1 ++ ".wav")) (FileData.wav is.2 sr),
               acc.2 ++ [mark.child (natStr is.1 ++ ".wav")])) acc).2 →
        (es.foldl
          (fun acc is =>
            if is.2.length < 1 then acc
            else
              (acc.1.save (mark.child (natStr is.1 ++ ".wav")) (FileData.wav is.2 sr),
               acc.2 ++ [mark.child (natStr is.1 ++ ".wav")])) acc).1.lookup q
          = acc.1.lookup q)
      ∧ acc.2 ⊆ (es.foldl
          (fun acc is =>
            if is.2.length < 1 then acc
            else
              (acc.1.save (mark.child (natStr is.1 ++ ".wav")) (FileData.wav is.2 sr),
               acc.2 ++ [mark.child (natStr is.1 ++ ".wav")])) acc).2 := by
  intro es
  induction es with
  | nil => exact fun acc => ⟨fun q _ => rfl, fun x hx => hx⟩
  | cons e rest ih =>
    intro acc
    rw [List.foldl_cons]
    by_cases hlen : e.2.length < 1
    · rw [if_pos hlen]
      exact ih acc
    · rw [if_neg hlen]
      obtain ⟨hframe, hsub⟩ :=
        ih (acc.1.save (mark.child (natStr e.1 ++ ".wav")) (FileData.wav e.2 sr),
          acc.2 ++ [mark.child (natStr e.1 ++ ".wav")])
      constructor
      · intro q hq
        have hqfn : q ≠ mark.child (natStr e.1 ++ ".wav") := by
          intro hc
          exact hq (hsub (by rw [hc]; simp))
        rw [hframe q hq]
        exact lookup_save_ne _ _ _ _ hqfn
      · intro x hx
        exact hsub (by simp [List.mem_append]; exact Or.inl hx)

/-- Frame property of `openCompute` with a spectrogram target: only the
image path can change. -/
theorem openCompute_frame_some (ext : Ext) (cfg : AudioTransformConfig)
    (p item ip2 : Path) (fs : FS) (out : OpenResult)
    (h : openCompute ext cfg p item (some ip2) fs = Except.ok out)
    (q : Path) (hq : q ≠ ip2) : out.fs.lookup q = fs.lookup q := by
  unfold openCompute at h
  split at h
  · dsimp only at h
    injection h with h1
    rw [← h1]
    dsimp only
    by_cases hc : cfg.cache = true
    · rw [if_pos hc, lookup_save_ne _ _ _ _ hq, lookup_makedirs]
    · rw [if_neg hc]
  · exact Except.noConfusion h

/-- `openCompute` without a spectrogram target never writes. -/
theorem openCompute_frame_none (ext : Ext) (cfg : AudioTransformConfig)
    (p item : Path) (fs : FS) (out : OpenResult)
    (h : openCompute ext cfg p item none fs = Except.ok out) : out.fs = fs := by
  unfold openCompute at h
  split at h
  · dsimp only at h
    injection h with h1
    rw [← h1]
  · exact Except.noConfusion h

/-- Claim C6 (amended): `make_cache` writes only files strictly inside
`config.cache_dir` and leaves every other path unchanged; a successful
`AudioList.open` changes at most the spectrogram image path, which lies
strictly inside `self.path / config.cache_dir`; and when the configured
cache directory is absolute (as `__init__` produces for an absolute list
path), `self.path / config.cache_dir` is `config.cache_dir` itself.  For
a relative list path the image path escapes `config.cache_dir`
(see the counterexample). -/
theorem claim6_writes_confined :
    (∀ (sigs : List Sig) (sr : Nat) (cfg : AudioTransformConfig)
      (ct : String) (hp : List String) (fs fs2 : FS) (files : List Path) (cd : Path),
      cfg.cache_dir = some cd →
      make_cache sigs sr cfg ct hp fs = some (fs2, files) →
      files.all (fun f => f.isUnder cd) = true
      ∧ ∀ q, q ∉ files → fs2.lookup q = fs.lookup q)
    ∧ (∀ (al : AudioList) (ext : Ext) (exts : List String) (item : Path)
      (fs : FS) (out : OpenResult) (cd : Path),
      al.config.cache_dir = some cd →
      al.openA ext exts item fs = Except.ok out →
      (imagePath al.path al.config cd (resolvePath fs al.path item)).isUnder
        (al.path.join cd) = true
      ∧ ∀ q, q ≠ imagePath al.path al.config cd (resolvePath fs al.path item) →
        out.fs.lookup q = fs.lookup q)
    ∧ (∀ (alPath cd : Path), cd.isAbs = true → alPath.join cd = cd) := by
  refine ⟨?_, ?_, ?_⟩
  · intro sigs sr cfg ct hp fs fs2 files cd hcd h
    unfold make_cache cacheMark at h
    rw [hcd] at h
    dsimp only [Option.map_some'] at h
    split at h
    · simp only [Option.some.injEq, Prod.mk.injEq] at h
      obtain ⟨hfs2, hfiles⟩ := h
      have hrw : sigs.enum = List.enumFrom 0 sigs := rfl
      constructor
      · rw [List.all_eq_true]
        intro f hf
        have hbase : ∀ g ∈ (([] : List Path)), (∃ s,
            (fs.makedirs (cd.child (ct ++ "_" ++ md5 (String.join hp)))).lookup g
              = some (FileData.wav s sr) ∧ 1 ≤ s.length)
            ∧ ∃ j, j < 0 ∧ g = (cd.child (ct ++ "_" ++ md5 (String.join hp))).child
              (natStr j ++ ".wav") := by
          intro g hg
          simp at hg
        rw [← hfiles, hrw] at hf
        obtain ⟨_, j, _, hfj⟩ := make_cache_fold_inv
          (cd.child (ct ++ "_" ++ md5 (String.join hp))) sr sigs 0
          (fs.makedirs (cd.child (ct ++ "_" ++ md5 (String.join hp))), []) hbase f hf
        rw [hfj]
        exact child_child_isUnder cd _ _
      · intro q hq
        obtain ⟨hframe, _⟩ := make_cache_fold_frame
          (cd.child (ct ++ "_" ++ md5 (String.join hp))) sr (List.enumFrom 0 sigs)
          (fs.makedirs (cd.child (ct ++ "_" ++ md5 (String.join hp))), [])
        rw [← hfiles, hrw] at hq
        rw [← hfs2, hrw, hframe q hq, lookup_makedirs]
    · simp only [Option.some.injEq, Prod.mk.injEq] at h
      refine ⟨by rw [← h.2]; rfl, fun q _ => by rw [← h.1]⟩
  · intro al ext exts item fs out cd hcd hok
    refine ⟨child_isUnder (al.path.join cd) _, fun q hq => ?_⟩
    unfold AudioList.openA at hok
    dsimp only at hok
    split at hok
    · exact Except.noConfusion hok
    · split at hok
      · exact Except.noConfusion hok
      · split at hok
        · rw [hcd] at hok
          dsimp only at hok
          split at hok
          · split at hok
            · injection hok with h1
              rw [← h1]
            · exact Except.noConfusion hok
          · exact openCompute_frame_some ext al.config _ item _ fs out hok q hq
        · have := openCompute_frame_none ext al.config _ item fs out hok
          rw [this]
  · intro alPath cd h
    unfold Path.join
    rw [if_pos h]

/-- Counterexample to claim C6 as stated: with the relative list path
`d`, a successful `AudioList.open` writes its spectrogram cache file at
`d/d/.cache/...` — a fresh file outside the configured cache directory
`config.cache_dir = d/.cache`. -/
theorem claim6_counterexample :
    alC6.config.cache_dir = some ⟨false, ["d", ".cache"]⟩
    ∧ ((alC6.openA ext0 audioExtsW itemC6 fsC6).map
      (fun o => o.fs.files.any (fun e =>
        !(e.1.isUnder ⟨false, ["d", ".cache"]⟩) && (fsC6.lookup e.1).isNone))).toOption
      = some true := by
  refine ⟨by decide, by decide⟩

/-- Witness for the amended C6: a concrete `make_cache` run confined to
the cache directory, a concrete `open` whose image path sits inside
`self.path / cache_dir`, and the absolute-path join identity. -/
theorem claim6_witness :
    (make_cache [[5]] 16000 cfgW9 "sh" [ipW.str] (⟨[], []⟩ : FS)).map
      (fun r => r.2.all (fun f => f.isUnder ⟨true, ["data", ".cache"]⟩)) = some true
    ∧ (imagePath alW8.path alW8.config ⟨true, ["data", ".cache"]⟩
        (resolvePath fsW8 alW8.path itemWa)).isUnder
        (alW8.path.join ⟨true, ["data", ".cache"]⟩) = true
    ∧ rootW.join ⟨true, ["data", ".cache"]⟩ = ⟨true, ["data", ".cache"]⟩ := by
  obtain ⟨mc, op, habs⟩ := claim6_writes_confined
  refine ⟨?_, ?_, habs rootW ⟨true, ["data", ".cache"]⟩ rfl⟩
  · rcases hmk : make_cache [[5]] 16000 cfgW9 "sh" [ipW.str] (⟨[], []⟩ : FS) with _ | r
    · exact absurd hmk (by decide)
    · rw [Option.map_some']
      exact congrArg some (mc [[5]] 16000 cfgW9 "sh" [ipW.str] ⟨[], []⟩ r.1 r.2
        ⟨true, ["data", ".cache"]⟩ (by decide) (by rw [hmk])).1
  · have hko : (alW8.openA ext0 audioExtsW itemWa fsW8).isOk = true := by decide
    rcases ho : alW8.openA ext0 audioExtsW itemWa fsW8 with e | out
    · rw [ho] at hko
      simp [Except.isOk, Except.toBool] at hko
    · exact (op alW8 ext0 audioExtsW itemWa fsW8 out ⟨true, ["data", ".cache"]⟩
        (by decide) ho).1

/-- The `foldl` in `applyOp` never recovers from a failure. -/
theorem applyOp_foldl_none
    (op : (Path × Label) → FS → Option (FS × List (Path × Label) × List Path)) :
    ∀ (items : List (Path × Label)),
      items.foldl (fun acc it =>
        match acc with
        | none => none
        | some (fs1, outs) =>
          match op it fs1 with
          | none => none
          | some (fs2, out, _) => some (fs2, outs ++ out))
        (none : Option (FS × List (Path × Label))) = none := by
  intro items
  induction items with
  | nil => rfl
  | cons it rest ih => rw [List.foldl_cons]; exact ih

/-- The accumulator form of `applyOp` against the recursive stage. -/
theorem applyOp_foldl_spec
    (op : (Path × Label) → FS → Option (FS × List (Path × Label) × List Path)) :
    ∀ (items : List (Path × Label)) (fs : FS) (outs0 : List (Path × Label)),
      items.foldl (fun acc it =>
        match acc with
        | none => none
        | some (fs1, outs) =>
          match op it fs1 with
          | none => none
          | some (fs2, out, _) => some (fs2, outs ++ out))
        (some (fs, outs0))
      = (stageSpec op items fs).map (fun r => (r.1, outs0 ++ r.2)) := by
  intro items
  induction items with
  | nil =>
    intro fs outs0
    simp [stageSpec]
  | cons it rest ih =>
    intro fs outs0
    rw [List.foldl_cons]
    rcases hop : op it fs with _ | ⟨fs2, out2, lds2⟩
    · dsimp only
      rw [hop]
      dsimp only
      rw [applyOp_foldl_none, stageSpec, hop]
      rfl
    · dsimp only
      rw [hop]
      dsimp only
      rw [ih fs2 (outs0 ++ out2)]
      rw [stageSpec, hop]
      dsimp only
      rcases hrest : stageSpec op rest fs2 with _ | ⟨fs3, outs3⟩
      · rfl
      · dsimp only [Option.map_some']
        rw [List.append_assoc]

/-- `applyOp` is the recursive stage. -/
theorem applyOp_eq_stageSpec
    (op : (Path × Label) → FS → Option (FS × List (Path × Label) × List Path))
    (items : List (Path × Label)) (fs : FS) :
    applyOp op items fs = stageSpec op items fs := by
  unfold applyOp
  rw [applyOp_foldl_spec op items fs []]
  rcases h : stageSpec op items fs with _ | r
  · rfl
  · simp

/-- Claim C4 (amended): when no pre-processing option is enabled, or the
item list is empty, `_pre_process` leaves items, labels and filesystem
unchanged; when one is enabled on a non-empty list it applies the three
stages in the order resample, silence removal, segmentation, each
flattening per-item results in order, and replaces the items and labels
with the flattened `(file, label)` pairs — provided at least one pair is
produced; if the pipeline yields no files the final tuple-unpacking
raises (see the counterexample). -/
theorem claim4_pre_process (ext : Ext) (cfg : AudioTransformConfig) (path : Path)
    (xs : List Path) (ys : List Label) (fs : FS) :
    ((xs.length > 0 && (cfg.remove_silence || pyTruthy cfg.segment_size
        || pyTruthy cfg.resample_to)) = false →
      pre_process ext cfg path xs ys fs = some (xs, ys, fs))
    ∧ ((xs.length > 0 && (cfg.remove_silence || pyTruthy cfg.segment_size
        || pyTruthy cfg.resample_to)) = true →
      pre_process ext cfg path xs ys fs =
        (do
          let s1 ←
            if pyTruthy cfg.resample_to then
              stageSpec (fun it f => resample_item ext it cfg path f) (xs.zip ys) fs
            else some (fs, xs.zip ys)
          let s2 ←
            if cfg.remove_silence then
              stageSpec (fun it f => remove_silence ext it cfg path f) s1.2 s1.1
            else some s1
          let s3 ←
            if pyTruthy cfg.segment_size then
              stageSpec (fun it f => segment_items it cfg path f) s2.2 s2.1
            else some s2
          if s3.2.isEmpty then none
          else some (s3.2.map Prod.fst, s3.2.map Prod.snd, s3.1))) := by
  constructor
  · intro h
    unfold pre_process
    rw [h]
    rfl
  · intro h
    unfold pre_process
    rw [h]
    simp only [applyOp_eq_stageSpec]
    rfl

/-- Counterexample to claim C4 as stated: segmenting a zero-length
signal produces no cache files, and `_pre_process` then crashes at
`tuple(zip(*items))` instead of replacing the items. -/
theorem claim4_counterexample :
    pre_process ext0 cfgW9 rootW [itemWa] [labW] fsC4 = none := by decide

/-- Witness for the amended C4: a disabled configuration leaves items
unchanged, and an enabled one equals the staged pipeline. -/
theorem claim4_witness :
    pre_process ext0 cfgW rootW [itemWa] [labW] fsW9 = some ([itemWa], [labW], fsW9)
    ∧ pre_process ext0 cfgW9 rootW [itemWa] [labW] fsW9 =
      (do
        let s1 ←
          if pyTruthy cfgW9.resample_to then
            stageSpec (fun it f => resample_item ext0 it cfgW9 rootW f)
              ([itemWa].zip [labW]) fsW9
          else some (fsW9, [itemWa].zip [labW])
        let s2 ←
          if cfgW9.remove_silence then
            stageSpec (fun it f => remove_silence ext0 it cfgW9 rootW f) s1.2 s1.1
          else some s1
        let s3 ←
          if pyTruthy cfgW9.segment_size then
            stageSpec (fun it f => segment_items it cfgW9 rootW f) s2.2 s2.1
          else some s2
        if s3.2.isEmpty then none
        else some (s3.2.map Prod.fst, s3.2.map Prod.snd, s3.1)) :=
  ⟨(claim4_pre_process ext0 cfgW rootW [itemWa] [labW] fsW9).1 (by decide),
   (claim4_pre_process ext0 cfgW9 rootW [itemWa] [labW] fsW9).2 (by decide)⟩

/-- A direct child of a directory has it as an ancestor. -/
theorem directChild_ancestor {fn mark : Path}
    (h : fn.isDirectChildOf mark = true) : mark.isAncestorOrSelf fn = true := by
  unfold Path.isDirectChildOf at h
  unfold Path.isAncestorOrSelf
  simp only [Bool.and_eq_true] at h ⊢
  exact ⟨h.1.1, h.1.2⟩

/-- `mark.child s` is a direct child of `mark`. -/
theorem child_isDirectChild (mark : Path) (s : String) :
    (mark.child s).isDirectChildOf mark = true := by
  unfold Path.child Path.isDirectChildOf
  simp [List.isPrefixOf_iff_prefix]

/-- A directory that does not exist contains no files. -/
theorem exists_false_getFiles {fs : FS} {mark : Path}
    (h : fs.exists mark = false) : fs.getFiles mark = [] := by
  unfold FS.getFiles
  have hall : ∀ e ∈ fs.files, ¬(e.1.isDirectChildOf mark = true) := by
    intro e he hc
    unfold FS.exists at h
    rw [Bool.or_eq_false_iff] at h
    have h1 := h.1
    rw [List.any_eq_false] at h1
    exact h1 e he (directChild_ancestor hc)
  rw [List.filter_eq_nil.mpr hall]
  rfl

/-- A direct child outside the directory listing is not a file. -/
theorem getFiles_not_mem_no_key {fs : FS} {mark fn : Path} {l : List Path}
    (hgf : fs.getFiles mark = l) (hnm : fn ∉ l)
    (hd : fn.isDirectChildOf mark = true) :
    fs.files.any (fun e => e.1 == fn) = false := by
  by_contra hc
  rw [Bool.not_eq_false, List.any_eq_true] at hc
  obtain ⟨e, he, heq⟩ := hc
  have hef : e.1 = fn := by simpa using heq
  apply hnm
  rw [← hgf]
  unfold FS.getFiles
  rw [List.mem_map]
  exact ⟨e, List.mem_filter.mpr ⟨he, by rw [hef]; exact hd⟩, hef⟩

/-- Saving at a fresh path appends the file entry. -/
theorem save_append {fs : FS} {p : Path} {d : FileData}
    (h : fs.files.any (fun e => e.1 == p) = false) :
    fs.save p d = ⟨fs.files ++ [(p, d)], fs.dirs⟩ := by
  unfold FS.save
  rw [if_neg (by simp [h])]

/-- Appending a direct child extends the directory listing by it. -/
theorem getFiles_append_direct {l : List (Path × FileData)} {ds : List Path}
    {mark fn : Path} {d : FileData} (hd : fn.isDirectChildOf mark = true) :
    (⟨l ++ [(fn, d)], ds⟩ : FS).getFiles mark
      = (⟨l, ds⟩ : FS).getFiles mark ++ [fn] := by
  unfold FS.getFiles
  simp [List.filter_append, hd]

/-- `makedirs` does not change the directory listing of files. -/
theorem getFiles_makedirs (fs : FS) (p mark : Path) :
    (fs.makedirs p).getFiles mark = fs.getFiles mark := by
  unfold FS.makedirs FS.getFiles
  split <;> rfl

/-- `save` does not change the directory set. -/
theorem dirs_save (fs : FS) (p : Path) (d : FileData) :
    (fs.save p d).dirs = fs.dirs := by
  unfold FS.save
  split <;> rfl

/-- A created directory exists. -/
theorem exists_of_dirs_mem {fs : FS} {mark : Path} (h : mark ∈ fs.dirs) :
    fs.exists mark = true := by
  unfold FS.exists
  rw [Bool.or_eq_true]
  refine Or.inr (List.any_eq_true.mpr ⟨mark, h, ?_⟩)
  unfold Path.isAncestorOrSelf
  simp [List.isPrefixOf_iff_prefix]

/-- `makedirs` records its target. -/
theorem makedirs_mem_dirs (fs : FS) (mark : Path) :
    mark ∈ (fs.makedirs mark).dirs := by
  unfold FS.makedirs
  split
  · rename_i hcont
    simpa using hcont
  · simp

/-- The write loop never touches the directory set. -/
theorem make_cache_fold_dirs (mark : Path) (sr : Nat) :
    ∀ (es : List (Nat × Sig)) (acc : FS × List Path),
      ((es.foldl
        (fun acc is =>
          if is.2.length < 1 then acc
          else
            (acc.1.save (mark.child (natStr is.1 ++ ".wav")) (FileData.wav is.2 sr),
             acc.2 ++ [mark.child (natStr is.1 ++ ".wav")])) acc).1).dirs
        = acc.1.dirs := by
  intro es
  induction es with
  | nil => intro acc; rfl
  | cons e rest ih =>
    intro acc
    rw [List.foldl_cons]
    by_cases hlen : e.2.length < 1
    · rw [if_pos hlen]
      exact ih acc
    · rw [if_neg hlen]
      rw [ih _]
      exact dirs_save _ _ _

/-- The write loop keeps the directory listing equal to its file
accumulator. -/
theorem make_cache_fold_getFiles (mark : Path) (sr : Nat) :
    ∀ (sigs : List Sig) (k : Nat) (acc : FS × List Path),
      acc.1.getFiles mark = acc.2 →
      (∀ f ∈ acc.2, ∃ j, j < k ∧ f = mark.child (natStr j ++ ".wav")) →
      ((List.enumFrom k sigs).foldl
        (fun acc is =>
          if is.2.length < 1 then acc
          else
            (acc.1.save (mark.child (natStr is.1 ++ ".wav")) (FileData.wav is.2 sr),
             acc.2 ++ [mark.child (natStr is.1 ++ ".wav")])) acc).1.getFiles mark
        = ((List.enumFrom k sigs).foldl
        (fun acc is =>
          if is.2.length < 1 then acc
          else
            (acc.1.save (mark.child (natStr is.1 ++ ".wav")) (FileData.wav is.2 sr),
             acc.2 ++ [mark.child (natStr is.1 ++ ".wav")])) acc).2 := by
  intro sigs
  induction sigs with
  | nil =>
    intro k acc hgf _
    exact hgf
  | cons s rest ih =>
    intro k acc hgf hnames
    rw [List.enumFrom, List.foldl_cons]
    by_cases hlen : s.length < 1
    · rw [if_pos hlen]
      exact ih (k + 1) acc hgf
        (fun f hf => (hnames f hf).elim (fun j hj => ⟨j, by omega, hj.2⟩))
    · rw [if_neg hlen]
      have hfresh : acc.1.files.any
          (fun e => e.1 == mark.child (natStr k ++ ".wav")) = false := by
        refine getFiles_not_mem_no_key hgf ?_ (child_isDirectChild mark _)
        intro hmem
        obtain ⟨j, hj, hfj⟩ := hnames _ hmem
        exact absurd (cache_fn_inj hfj.symm) (by omega)
      have hsave := @save_append acc.1 (mark.child (natStr k ++ ".wav"))
        (FileData.wav s sr) hfresh
      refine ih (k + 1)
        (acc.1.save (mark.child (natStr k ++ ".wav")) (FileData.wav s sr),
         acc.2 ++ [mark.child (natStr k ++ ".wav")]) ?_ ?_
      · show (acc.1.save (mark.child (natStr k ++ ".wav")) (FileData.wav s sr)).getFiles
            mark = acc.2 ++ [mark.child (natStr k ++ ".wav")]
        rw [hsave]
        have := @getFiles_append_direct acc.1.files acc.1.dirs mark
          (mark.child (natStr k ++ ".wav")) (FileData.wav s sr)
          (child_isDirectChild mark (natStr k ++ ".wav"))
        rw [this]
        rw [← hgf]
      · intro f hf
        rcases List.mem_append.mp hf with hold | hnew
        · obtain ⟨j, hj, hfj⟩ := hnames f hold
          exact ⟨j, by omega, hfj⟩
        · exact ⟨k, by omega, by simpa using hnew⟩

/-- A second `resample_item` call with a stable item resolution returns
the same `(file, label)` list as the first. -/
theorem resample_idem (ext : Ext) (it : Path × Label)
    (cfg : AudioTransformConfig) (path : Path) (fs fs2 : FS)
    (out : List (Path × Label)) (lds : List Path)
    (h : resample_item ext it cfg path fs = some (fs2, out, lds))
    (hres : resolvePath fs2 path it.1 = resolvePath fs path it.1)
    (hlook : fs2.lookup (resolvePath fs path it.1)
      = fs.lookup (resolvePath fs path it.1)) :
    (resample_item ext it cfg path fs2).map (fun r => r.2.1) = some out := by
  unfold resample_item at h ⊢
  dsimp only at h ⊢
  rw [hres, hlook]
  rcases hgc : get_cache cfg "rs"
      [(resolvePath fs path it.1).str, pyOptNat cfg.resample_to] fs with _ | files
  case none =>
    rw [hgc] at h
    dsimp only at h
    have hgf : ∀ mark, cacheMark cfg "rs"
        [(resolvePath fs path it.1).str, pyOptNat cfg.resample_to] = some mark →
        fs.getFiles mark = [] := by
      intro mark hcm
      unfold get_cache at hgc
      rw [hcm] at hgc
      dsimp only at hgc
      split at hgc
      · first
        | simpa using hgc
        | exact Option.noConfusion hgc
      · first
        | exact Option.noConfusion hgc
        | (rename_i hnex
           exact exists_false_getFiles (by simpa using hnex))
    rcases hlk : fs.lookup (resolvePath fs path it.1) with _ | fd
    · rw [hlk] at h
      exact Option.noConfusion h
    · cases fd with
      | tensor t =>
        rw [hlk] at h
        exact Option.noConfusion h
      | wav sig sr =>
        rw [hlk] at h
        dsimp only at h
        rcases hsr : cfg.resample_to with _ | srn
        · rw [hsr] at h
          exact Option.noConfusion h
        · rw [hsr] at h
          dsimp only at h
          rw [Option.map_eq_some'] at h
          obtain ⟨mc, hmc, hout⟩ := h
          simp only [Prod.mk.injEq] at hout
          obtain ⟨hfs2, hout2, hlds⟩ := hout
          unfold make_cache at hmc
          rcases hcm : cacheMark cfg "rs"
              [(resolvePath fs path it.1).str, pyOptNat (some srn)] with _ | mark
          · rw [hcm] at hmc
            exact Option.noConfusion hmc
          · rw [hcm] at hmc
            dsimp only at hmc
            rw [if_pos (by simp)] at hmc
            have hgfm := hgf mark (by rw [hsr]; exact hcm)
            simp only [List.enum, List.enumFrom, List.foldl] at hmc
            by_cases hempty : (ext.tfm_resample sig sr (some srn)).length < 1
            · rw [if_pos hempty] at hmc
              simp only [Option.some.injEq] at hmc
              subst hmc
              dsimp only at hfs2
              subst hfs2
              dsimp only [List.map_nil] at hout2
              subst hout2
              unfold get_cache
              rw [hcm]
              dsimp only
              simp only [exists_of_dirs_mem (makedirs_mem_dirs fs mark), if_true]
              rw [getFiles_makedirs, hgfm]
              dsimp only
              unfold make_cache
              rw [hcm]
              dsimp only
              rw [if_pos (by simp)]
              simp only [List.enum, List.enumFrom, List.foldl]
              rw [if_pos hempty]
              rfl
            · rw [if_neg hempty] at hmc
              simp only [Option.some.injEq] at hmc
              subst hmc
              dsimp only at hfs2
              subst hfs2
              dsimp only [List.nil_append] at hout2
              have hgfmd0 : (fs.makedirs mark).getFiles mark = [] := by
                rw [getFiles_makedirs, hgfm]
              have hfresh : (fs.makedirs mark).files.any
                  (fun e => e.1 == mark.child (natStr 0 ++ ".wav")) = false :=
                getFiles_not_mem_no_key hgfmd0 (List.not_mem_nil _)
                  (child_isDirectChild mark _)
              unfold get_cache
              rw [hcm]
              dsimp only
              have hdirs : mark ∈ ((fs.makedirs mark).save
                  (mark.child (natStr 0 ++ ".wav"))
                  (FileData.wav (ext.tfm_resample sig sr (some srn)) srn)).dirs := by
                rw [dirs_save]
                exact makedirs_mem_dirs fs mark
              simp only [exists_of_dirs_mem hdirs, if_true]
              rw [save_append hfresh]
              rw [getFiles_append_direct (child_isDirectChild mark _)]
              have hgfmd : (⟨(fs.makedirs mark).files, (fs.makedirs mark).dirs⟩ : FS).getFiles
                  mark = [] := by
                rw [show (⟨(fs.makedirs mark).files, (fs.makedirs mark).dirs⟩ : FS)
                  = fs.makedirs mark from rfl]
                rw [getFiles_makedirs, hgfm]
              rw [hgfmd]
              dsimp only [List.nil_append]
              rw [← hout2]
              rfl
  case some =>
    cases files with
    | cons f rest =>
      rw [hgc] at h
      dsimp only at h
      simp only [Option.some.injEq, Prod.mk.injEq] at h
      obtain ⟨hfs2, hout, _⟩ := h
      subst hfs2
      rw [hgc]
      dsimp only
      rw [hout]
      rfl
    | nil =>
    rw [hgc] at h
    dsimp only at h
    have hgf : ∀ mark, cacheMark cfg "rs"
        [(resolvePath fs path it.1).str, pyOptNat cfg.resample_to] = some mark →
        fs.getFiles mark = [] := by
      intro mark hcm
      unfold get_cache at hgc
      rw [hcm] at hgc
      dsimp only at hgc
      split at hgc
      · first
        | simpa using hgc
        | exact Option.noConfusion hgc
      · first
        | exact Option.noConfusion hgc
        | (rename_i hnex
           exact exists_false_getFiles (by simpa using hnex))
    rcases hlk : fs.lookup (resolvePath fs path it.1) with _ | fd
    · rw [hlk] at h
      exact Option.noConfusion h
    · cases fd with
      | tensor t =>
        rw [hlk] at h
        exact Option.noConfusion h
      | wav sig sr =>
        rw [hlk] at h
        dsimp only at h
        rcases hsr : cfg.resample_to with _ | srn
        · rw [hsr] at h
          exact Option.noConfusion h
        · rw [hsr] at h
          dsimp only at h
          rw [Option.map_eq_some'] at h
          obtain ⟨mc, hmc, hout⟩ := h
          simp only [Prod.mk.injEq] at hout
          obtain ⟨hfs2, hout2, hlds⟩ := hout
          unfold make_cache at hmc
          rcases hcm : cacheMark cfg "rs"
              [(resolvePath fs path it.1).str, pyOptNat (some srn)] with _ | mark
          · rw [hcm] at hmc
            exact Option.noConfusion hmc
          · rw [hcm] at hmc
            dsimp only at hmc
            rw [if_pos (by simp)] at hmc
            have hgfm := hgf mark (by rw [hsr]; exact hcm)
            simp only [List.enum, List.enumFrom, List.foldl] at hmc
            by_cases hempty : (ext.tfm_resample sig sr (some srn)).length < 1
            · rw [if_pos hempty] at hmc
              simp only [Option.some.injEq] at hmc
              subst hmc
              dsimp only at hfs2
              subst hfs2
              dsimp only [List.map_nil] at hout2
              subst hout2
              unfold get_cache
              rw [hcm]
              dsimp only
              simp only [exists_of_dirs_mem (makedirs_mem_dirs fs mark), if_true]
              rw [getFiles_makedirs, hgfm]
              dsimp only
              unfold make_cache
              rw [hcm]
              dsimp only
              rw [if_pos (by simp)]
              simp only [List.enum, List.enumFrom, List.foldl]
              rw [if_pos hempty]
              rfl
            · rw [if_neg hempty] at hmc
              simp only [Option.some.injEq] at hmc
              subst hmc
              dsimp only at hfs2
              subst hfs2
              dsimp only [List.nil_append] at hout2
              have hgfmd0 : (fs.makedirs mark).getFiles mark = [] := by
                rw [getFiles_makedirs, hgfm]
              have hfresh : (fs.makedirs mark).files.any
                  (fun e => e.1 == mark.child (natStr 0 ++ ".wav")) = false :=
                getFiles_not_mem_no_key hgfmd0 (List.not_mem_nil _)
                  (child_isDirectChild mark _)
              unfold get_cache
              rw [hcm]
              dsimp only
              have hdirs : mark ∈ ((fs.makedirs mark).save
                  (mark.child (natStr 0 ++ ".wav"))
                  (FileData.wav (ext.tfm_resample sig sr (some srn)) srn)).dirs := by
                rw [dirs_save]
                exact makedirs_mem_dirs fs mark
              simp only [exists_of_dirs_mem hdirs, if_true]
              rw [save_append hfresh]
              rw [getFiles_append_direct (child_isDirectChild mark _)]
              have hgfmd : (⟨(fs.makedirs mark).files, (fs.makedirs mark).dirs⟩ : FS).getFiles
                  mark = [] := by
                rw [show (⟨(fs.makedirs mark).files, (fs.makedirs mark).dirs⟩ : FS)
                  = fs.makedirs mark from rfl]
                rw [getFiles_makedirs, hgfm]
              rw [hgfmd]
              dsimp only [List.nil_append]
              rw [← hout2]
              rfl

/-- The file list accumulated by the write loop depends only on the
signals and the incoming list. -/
theorem make_cache_fold_snd (mark : Path) (sr : Nat) :
    ∀ (es : List (Nat × Sig)) (acc acc2 : FS × List Path), acc.2 = acc2.2 →
      ((es.foldl
        (fun acc is =>
          if is.2.length < 1 then acc
          else
            (acc.1.save (mark.child (natStr is.1 ++ ".wav")) (FileData.wav is.2 sr),
             acc.2 ++ [mark.child (natStr is.1 ++ ".wav")])) acc).2)
        = ((es.foldl
        (fun acc is =>
          if is.2.length < 1 then acc
          else
            (acc.1.save (mark.child (natStr is.1 ++ ".wav")) (FileData.wav is.2 sr),
             acc.2 ++ [mark.child (natStr is.1 ++ ".wav")])) acc2).2) := by
  intro es
  induction es with
  | nil => intro acc acc2 h; exact h
  | cons e rest ih =>
    intro acc acc2 h
    rw [List.foldl_cons, List.foldl_cons]
    by_cases hlen : e.2.length < 1
    · rw [if_pos hlen, if_pos hlen]
      exact ih acc acc2 h
    · rw [if_neg hlen, if_neg hlen]
      exact ih _ _ (by dsimp only; rw [h])

/-- A second `remove_silence` call with a stable item resolution returns
the same `(file, label)` list as the first. -/
theorem remove_silence_idem (ext : Ext) (it : Path × Label)
    (cfg : AudioTransformConfig) (path : Path) (fs fs2 : FS)
    (out : List (Path × Label)) (lds : List Path)
    (h : remove_silence ext it cfg path fs = some (fs2, out, lds))
    (hres : resolvePath fs2 path it.1 = resolvePath fs path it.1)
    (hlook : fs2.lookup (resolvePath fs path it.1)
      = fs.lookup (resolvePath fs path it.1)) :
    (remove_silence ext it cfg path fs2).map (fun r => r.2.1) = some out := by
  unfold remove_silence at h ⊢
  dsimp only at h ⊢
  rw [hres, hlook]
  rcases hgc : get_cache cfg "sh"
      [(resolvePath fs path it.1).str, natStr cfg.silence_threshold,
        natStr cfg.silence_padding] fs with _ | files
  case none =>
    rw [hgc] at h
    dsimp only at h
    have hgf : ∀ mark, cacheMark cfg "sh"
        [(resolvePath fs path it.1).str, natStr cfg.silence_threshold,
          natStr cfg.silence_padding] = some mark →
        fs.getFiles mark = [] := by
      intro mark hcm
      unfold get_cache at hgc
      rw [hcm] at hgc
      dsimp only at hgc
      split at hgc
      · first
        | simpa using hgc
        | exact Option.noConfusion hgc
      · first
        | exact Option.noConfusion hgc
        | (rename_i hnex
           exact exists_false_getFiles (by simpa using hnex))
    rcases hlk : fs.lookup (resolvePath fs path it.1) with _ | fd
    · rw [hlk] at h
      exact Option.noConfusion h
    · cases fd with
      | tensor t =>
        rw [hlk] at h
        exact Option.noConfusion h
      | wav sig sr =>
        rw [hlk] at h
        dsimp only at h
        rw [Option.map_eq_some'] at h
        obtain ⟨mc, hmc, hout⟩ := h
        simp only [Prod.mk.injEq] at hout
        obtain ⟨hfs2, hout2, hlds⟩ := hout
        unfold make_cache at hmc
        rcases hcm : cacheMark cfg "sh"
            [(resolvePath fs path it.1).str, natStr cfg.silence_threshold,
              natStr cfg.silence_padding] with _ | mark
        · rw [hcm] at hmc
          exact Option.noConfusion hmc
        · rw [hcm] at hmc
          dsimp only at hmc
          have hgfm := hgf mark hcm
          by_cases hsigs :
              (ext.tfm_chop_silence sig sr cfg.silence_threshold
                cfg.silence_padding).length > 0
          · rw [if_pos hsigs] at hmc
            simp only [Option.some.injEq] at hmc
            subst hmc
            dsimp only at hfs2
            subst hfs2
            dsimp only at hout2
            have hrw : (ext.tfm_chop_silence sig sr cfg.silence_threshold
                cfg.silence_padding).enum = List.enumFrom 0
                (ext.tfm_chop_silence sig sr cfg.silence_threshold
                  cfg.silence_padding) := rfl
            rw [hrw] at hout2 ⊢
            have hdirs : mark ∈ (((List.enumFrom 0
                (ext.tfm_chop_silence sig sr cfg.silence_threshold
                  cfg.silence_padding)).foldl
                (fun acc is =>
                  if is.2.length < 1 then acc
                  else
                    (acc.1.save (mark.child (natStr is.1 ++ ".wav"))
                      (FileData.wav is.2 sr),
                     acc.2 ++ [mark.child (natStr is.1 ++ ".wav")]))
                (fs.makedirs mark, [])).1).dirs := by
              rw [make_cache_fold_dirs]
              exact makedirs_mem_dirs fs mark
            have hgfiles := make_cache_fold_getFiles mark sr
              (ext.tfm_chop_silence sig sr cfg.silence_threshold
                cfg.silence_padding) 0 (fs.makedirs mark, [])
              (by rw [getFiles_makedirs, hgfm])
              (by intro f hf; simp at hf)
            unfold get_cache
            rw [hcm]
            dsimp only
            simp only [exists_of_dirs_mem hdirs, if_true]
            rw [hgfiles]
            rcases hfl : ((List.enumFrom 0
                (ext.tfm_chop_silence sig sr cfg.silence_threshold
                  cfg.silence_padding)).foldl
                (fun acc is =>
                  if is.2.length < 1 then acc
                  else
                    (acc.1.save (mark.child (natStr is.1 ++ ".wav"))
                      (FileData.wav is.2 sr),
                     acc.2 ++ [mark.child (natStr is.1 ++ ".wav")]))
                (fs.makedirs mark, [])).2 with _ | ⟨f, rest⟩
            · rw [hfl] at hout2
              rw [hfl]
              dsimp only [List.map_nil] at hout2
              subst hout2
              dsimp only
              unfold make_cache
              rw [hcm]
              dsimp only
              rw [if_pos hsigs, hrw]
              have hsnd := make_cache_fold_snd mark sr
                (List.enumFrom 0 (ext.tfm_chop_silence sig sr
                  cfg.silence_threshold cfg.silence_padding))
                (((List.enumFrom 0 (ext.tfm_chop_silence sig sr
                    cfg.silence_threshold cfg.silence_padding)).foldl
                  (fun acc is =>
                    if is.2.length < 1 then acc
                    else
                      (acc.1.save (mark.child (natStr is.1 ++ ".wav"))
                        (FileData.wav is.2 sr),
                       acc.2 ++ [mark.child (natStr is.1 ++ ".wav")]))
                  (fs.makedirs mark, [])).1.makedirs mark, [])
                (fs.makedirs mark, []) rfl
              simp only [Option.map_some']
              rw [hsnd, hfl]
              rfl
            · rw [hfl] at hout2
              rw [hfl]
              dsimp only
              rw [← hout2]
              rfl
          · rw [if_neg hsigs] at hmc
            simp only [Option.some.injEq] at hmc
            subst hmc
            dsimp only at hfs2
            subst hfs2
            dsimp only [List.map_nil] at hout2
            subst hout2
            rw [hgc]
            dsimp only
            unfold make_cache
            rw [hcm]
            dsimp only
            rw [if_neg hsigs]
            rfl
  case some =>
    cases files with
    | cons f rest =>
      rw [hgc] at h
      dsimp only at h
      simp only [Option.some.injEq, Prod.mk.injEq] at h
      obtain ⟨hfs2, hout, _⟩ := h
      subst hfs2
      rw [hgc]
      dsimp only
      rw [hout]
      rfl
    | nil =>
    rw [hgc] at h
    dsimp only at h
    have hgf : ∀ mark, cacheMark cfg "sh"
        [(resolvePath fs path it.1).str, natStr cfg.silence_threshold,
          natStr cfg.silence_padding] = some mark →
        fs.getFiles mark = [] := by
      intro mark hcm
      unfold get_cache at hgc
      rw [hcm] at hgc
      dsimp only at hgc
      split at hgc
      · first
        | simpa using hgc
        | exact Option.noConfusion hgc
      · first
        | exact Option.noConfusion hgc
        | (rename_i hnex
           exact exists_false_getFiles (by simpa using hnex))
    rcases hlk : fs.lookup (resolvePath fs path it.1) with _ | fd
    · rw [hlk] at h
      exact Option.noConfusion h
    · cases fd with
      | tensor t =>
        rw [hlk] at h
        exact Option.noConfusion h
      | wav sig sr =>
        rw [hlk] at h
        dsimp only at h
        rw [Option.map_eq_some'] at h
        obtain ⟨mc, hmc, hout⟩ := h
        simp only [Prod.mk.injEq] at hout
        obtain ⟨hfs2, hout2, hlds⟩ := hout
        unfold make_cache at hmc
        rcases hcm : cacheMark cfg "sh"
            [(resolvePath fs path it.1).str, natStr cfg.silence_threshold,
              natStr cfg.silence_padding] with _ | mark
        · rw [hcm] at hmc
          exact Option.noConfusion hmc
        · rw [hcm] at hmc
          dsimp only at hmc
          have hgfm := hgf mark hcm
          by_cases hsigs :
              (ext.tfm_chop_silence sig sr cfg.silence_threshold
                cfg.silence_padding).length > 0
          · rw [if_pos hsigs] at hmc
            simp only [Option.some.injEq] at hmc
            subst hmc
            dsimp only at hfs2
            subst hfs2
            dsimp only at hout2
            have hrw : (ext.tfm_chop_silence sig sr cfg.silence_threshold
                cfg.silence_padding).enum = List.enumFrom 0
                (ext.tfm_chop_silence sig sr cfg.silence_threshold
                  cfg.silence_padding) := rfl
            rw [hrw] at hout2 ⊢
            have hdirs : mark ∈ (((List.enumFrom 0
                (ext.tfm_chop_silence sig sr cfg.silence_threshold
                  cfg.silence_padding)).foldl
                (fun acc is =>
                  if is.2.length < 1 then acc
                  else
                    (acc.1.save (mark.child (natStr is.1 ++ ".wav"))
                      (FileData.wav is.2 sr),
                     acc.2 ++ [mark.child (natStr is.1 ++ ".wav")]))
                (fs.makedirs mark, [])).1).dirs := by
              rw [make_cache_fold_dirs]
              exact makedirs_mem_dirs fs mark
            have hgfiles := make_cache_fold_getFiles mark sr
              (ext.tfm_chop_silence sig sr cfg.silence_threshold
                cfg.silence_padding) 0 (fs.makedirs mark, [])
              (by rw [getFiles_makedirs, hgfm])
              (by intro f hf; simp at hf)
            unfold get_cache
            rw [hcm]
            dsimp only
            simp only [exists_of_dirs_mem hdirs, if_true]
            rw [hgfiles]
            rcases hfl : ((List.enumFrom 0
                (ext.tfm_chop_silence sig sr cfg.silence_threshold
                  cfg.silence_padding)).foldl
                (fun acc is =>
                  if is.2.length < 1 then acc
                  else
                    (acc.1.save (mark.child (natStr is.1 ++ ".wav"))
                      (FileData.wav is.2 sr),
                     acc.2 ++ [mark.child (natStr is.1 ++ ".wav")]))
                (fs.makedirs mark, [])).2 with _ | ⟨f, rest⟩
            · rw [hfl] at hout2
              rw [hfl]
              dsimp only [List.map_nil] at hout2
              subst hout2
              dsimp only
              unfold make_cache
              rw [hcm]
              dsimp only
              rw [if_pos hsigs, hrw]
              have hsnd := make_cache_fold_snd mark sr
                (List.enumFrom 0 (ext.tfm_chop_silence sig sr
                  cfg.silence_threshold cfg.silence_padding))
                (((List.enumFrom 0 (ext.tfm_chop_silence sig sr
                    cfg.silence_threshold cfg.silence_padding)).foldl
                  (fun acc is =>
                    if is.2.length < 1 then acc
                    else
                      (acc.1.save (mark.child (natStr is.1 ++ ".wav"))
                        (FileData.wav is.2 sr),
                       acc.2 ++ [mark.child (natStr is.1 ++ ".wav")]))
                  (fs.makedirs mark, [])).1.makedirs mark, [])
                (fs.makedirs mark, []) rfl
              simp only [Option.map_some']
              rw [hsnd, hfl]
              rfl
            · rw [hfl] at hout2
              rw [hfl]
              dsimp only
              rw [← hout2]
              rfl
          · rw [if_neg hsigs] at hmc
            simp only [Option.some.injEq] at hmc
            subst hmc
            dsimp only at hfs2
            subst hfs2
            dsimp only [List.map_nil] at hout2
            subst hout2
            rw [hgc]
            dsimp only
            unfold make_cache
            rw [hcm]
            dsimp only
            rw [if_neg hsigs]
            rfl

/-- A second `segment_items` call with a stable item resolution returns
the same `(file, label)` list as the first. -/
theorem segment_idem (it : Path × Label)
    (cfg : AudioTransformConfig) (path : Path) (fs fs2 : FS)
    (out : List (Path × Label)) (lds : List Path)
    (h : segment_items it cfg path fs = some (fs2, out, lds))
    (hres : resolvePath fs2 path it.1 = resolvePath fs path it.1)
    (hlook : fs2.lookup (resolvePath fs path it.1)
      = fs.lookup (resolvePath fs path it.1)) :
    (segment_items it cfg path fs2).map (fun r => r.2.1) = some out := by
  unfold segment_items at h ⊢
  dsimp only at h ⊢
  rw [hres, hlook]
  rcases hlk : fs.lookup (resolvePath fs path it.1) with _ | fd
  · rw [hlk] at h
    exact Option.noConfusion h
  · cases fd with
    | tensor t =>
      rw [hlk] at h
      exact Option.noConfusion h
    | wav sig sr =>
      rw [hlk] at h
      dsimp only at h
      rcases hss : cfg.segment_size with _ | ss
      · rw [hss] at h
        exact Option.noConfusion h
      · rw [hss] at h
        dsimp only at h
        rcases hgc : get_cache cfg "s"
            [(resolvePath fs path it.1).str, natStr (ss * sr / 1000), it.2] fs
            with _ | files
        · 
          rw [hgc] at h
          dsimp only at h
          have hgf : ∀ mark, cacheMark cfg "s"
              [(resolvePath fs path it.1).str, natStr (ss * sr / 1000), it.2]
                = some mark →
              fs.getFiles mark = [] := by
            intro mark hcm
            unfold get_cache at hgc
            rw [hcm] at hgc
            dsimp only at hgc
            split at hgc
            · first
              | simpa using hgc
              | exact Option.noConfusion hgc
            · first
              | exact Option.noConfusion hgc
              | (rename_i hnex
                 exact exists_false_getFiles (by simpa using hnex))
          rcases h0 : ((ss * sr / 1000 : Nat) == 0) with _ | _
          case true =>
            rw [h0] at h
            exact Option.noConfusion h
          case false =>
            rw [h0] at h
            rw [if_neg Bool.false_ne_true] at h
            rw [Option.map_eq_some'] at h
            obtain ⟨mc, hmc, hout⟩ := h
            simp only [Prod.mk.injEq] at hout
            obtain ⟨hfs2, hout2, hlds⟩ := hout
            unfold make_cache at hmc
            rcases hcm : cacheMark cfg "s"
                [(resolvePath fs path it.1).str, natStr (ss * sr / 1000), it.2]
                with _ | mark
            · rw [hcm] at hmc
              exact Option.noConfusion hmc
            · rw [hcm] at hmc
              dsimp only at hmc
              have hgfm := hgf mark hcm
              have hsigs : (segSlices sig (ss * sr / 1000)).length > 0 := by
                unfold segSlices
                simp
              rw [if_pos hsigs] at hmc
              simp only [Option.some.injEq] at hmc
              subst hmc
              dsimp only at hfs2
              subst hfs2
              dsimp only at hout2
              have hrw : (segSlices sig (ss * sr / 1000)).enum
                  = List.enumFrom 0 (segSlices sig (ss * sr / 1000)) := rfl
              rw [hrw] at hout2 ⊢
              have hdirs : mark ∈ (((List.enumFrom 0
                  (segSlices sig (ss * sr / 1000))).foldl
                  (fun acc is =>
                    if is.2.length < 1 then acc
                    else
                      (acc.1.save (mark.child (natStr is.1 ++ ".wav"))
                        (FileData.wav is.2 sr),
                       acc.2 ++ [mark.child (natStr is.1 ++ ".wav")]))
                  (fs.makedirs mark, [])).1).dirs := by
                rw [make_cache_fold_dirs]
                exact makedirs_mem_dirs fs mark
              have hgfiles := make_cache_fold_getFiles mark sr
                (segSlices sig (ss * sr / 1000)) 0 (fs.makedirs mark, [])
                (by rw [getFiles_makedirs, hgfm])
                (by intro f hf; simp at hf)
              dsimp only
              unfold get_cache
              rw [hcm]
              dsimp only
              simp only [exists_of_dirs_mem hdirs, if_true]
              rw [hgfiles]
              rcases hfl : ((List.enumFrom 0
                  (segSlices sig (ss * sr / 1000))).foldl
                  (fun acc is =>
                    if is.2.length < 1 then acc
                    else
                      (acc.1.save (mark.child (natStr is.1 ++ ".wav"))
                        (FileData.wav is.2 sr),
                       acc.2 ++ [mark.child (natStr is.1 ++ ".wav")]))
                  (fs.makedirs mark, [])).2 with _ | ⟨f, rest⟩
              · rw [hfl] at hout2
                rw [hfl]
                dsimp only [List.map_nil] at hout2
                subst hout2
                dsimp only
                unfold make_cache
                rw [hcm]
                dsimp only
                rw [if_pos hsigs, hrw]
                have hsnd := make_cache_fold_snd mark sr
                  (List.enumFrom 0 (segSlices sig (ss * sr / 1000)))
                  (((List.enumFrom 0 (segSlices sig (ss * sr / 1000))).foldl
                    (fun acc is =>
                      if is.2.length < 1 then acc
                      else
                        (acc.1.save (mark.child (natStr is.1 ++ ".wav"))
                          (FileData.wav is.2 sr),
                         acc.2 ++ [mark.child (natStr is.1 ++ ".wav")]))
                    (fs.makedirs mark, [])).1.makedirs mark, [])
                  (fs.makedirs mark, []) rfl
                simp only [Option.map_some']
                rw [hsnd, hfl]
                rw [h0, if_neg Bool.false_ne_true]
                rfl
              · rw [hfl] at hout2
                rw [hfl]
                dsimp only
                rw [← hout2]
                rfl
        · cases files with
          | cons f rest =>
            rw [hgc] at h
            dsimp only at h
            simp only [Option.some.injEq, Prod.mk.injEq] at h
            obtain ⟨hfs2, hout, _⟩ := h
            subst hfs2
            dsimp only
            rw [hgc]
            dsimp only
            rw [hout]
            rfl
          | nil =>
            rw [hgc] at h
            dsimp only at h
            have hgf : ∀ mark, cacheMark cfg "s"
                [(resolvePath fs path it.1).str, natStr (ss * sr / 1000), it.2]
                  = some mark →
                fs.getFiles mark = [] := by
              intro mark hcm
              unfold get_cache at hgc
              rw [hcm] at hgc
              dsimp only at hgc
              split at hgc
              · first
                | simpa using hgc
                | exact Option.noConfusion hgc
              · first
                | exact Option.noConfusion hgc
                | (rename_i hnex
                   exact exists_false_getFiles (by simpa using hnex))
            rcases h0 : ((ss * sr / 1000 : Nat) == 0) with _ | _
            case true =>
              rw [h0] at h
              exact Option.noConfusion h
            case false =>
              rw [h0] at h
              rw [if_neg Bool.false_ne_true] at h
              rw [Option.map_eq_some'] at h
              obtain ⟨mc, hmc, hout⟩ := h
              simp only [Prod.mk.injEq] at hout
              obtain ⟨hfs2, hout2, hlds⟩ := hout
              unfold make_cache at hmc
              rcases hcm : cacheMark cfg "s"
                  [(resolvePath fs path it.1).str, natStr (ss * sr / 1000), it.2]
                  with _ | mark
              · rw [hcm] at hmc
                exact Option.noConfusion hmc
              · rw [hcm] at hmc
                dsimp only at hmc
                have hgfm := hgf mark hcm
                have hsigs : (segSlices sig (ss * sr / 1000)).length > 0 := by
                  unfold segSlices
                  simp
                rw [if_pos hsigs] at hmc
                simp only [Option.some.injEq] at hmc
                subst hmc
                dsimp only at hfs2
                subst hfs2
                dsimp only at hout2
                have hrw : (segSlices sig (ss * sr / 1000)).enum
                    = List.enumFrom 0 (segSlices sig (ss * sr / 1000)) := rfl
                rw [hrw] at hout2 ⊢
                have hdirs : mark ∈ (((List.enumFrom 0
                    (segSlices sig (ss * sr / 1000))).foldl
                    (fun acc is =>
                      if is.2.length < 1 then acc
                      else
                        (acc.1.save (mark.child (natStr is.1 ++ ".wav"))
                          (FileData.wav is.2 sr),
                         acc.2 ++ [mark.child (natStr is.1 ++ ".wav")]))
                    (fs.makedirs mark, [])).1).dirs := by
                  rw [make_cache_fold_dirs]
                  exact makedirs_mem_dirs fs mark
                have hgfiles := make_cache_fold_getFiles mark sr
                  (segSlices sig (ss * sr / 1000)) 0 (fs.makedirs mark, [])
                  (by rw [getFiles_makedirs, hgfm])
                  (by intro f hf; simp at hf)
                dsimp only
                unfold get_cache
                rw [hcm]
                dsimp only
                simp only [exists_of_dirs_mem hdirs, if_true]
                rw [hgfiles]
                rcases hfl : ((List.enumFrom 0
                    (segSlices sig (ss * sr / 1000))).foldl
                    (fun acc is =>
                      if is.2.length < 1 then acc
                      else
                        (acc.1.save (mark.child (natStr is.1 ++ ".wav"))
                          (FileData.wav is.2 sr),
                         acc.2 ++ [mark.child (natStr is.1 ++ ".wav")]))
                    (fs.makedirs mark, [])).2 with _ | ⟨f, rest⟩
                · rw [hfl] at hout2
                  rw [hfl]
                  dsimp only [List.map_nil] at hout2
                  subst hout2
                  dsimp only
                  unfold make_cache
                  rw [hcm]
                  dsimp only
                  rw [if_pos hsigs, hrw]
                  have hsnd := make_cache_fold_snd mark sr
                    (List.enumFrom 0 (segSlices sig (ss * sr / 1000)))
                    (((List.enumFrom 0 (segSlices sig (ss * sr / 1000))).foldl
                      (fun acc is =>
                        if is.2.length < 1 then acc
                        else
                          (acc.1.save (mark.child (natStr is.1 ++ ".wav"))
                            (FileData.wav is.2 sr),
                           acc.2 ++ [mark.child (natStr is.1 ++ ".wav")]))
                      (fs.makedirs mark, [])).1.makedirs mark, [])
                    (fs.makedirs mark, []) rfl
                  simp only [Option.map_some']
                  rw [hsnd, hfl]
                  rw [h0, if_neg Bool.false_ne_true]
                  rfl
                · rw [hfl] at hout2
                  rw [hfl]
                  dsimp only
                  rw [← hout2]
                  rfl

/-- Claim C5 (amended): each pre-processing operation memoizes through
an existence check on its hashed cache directory — when that directory
holds files, `resample_item` and `remove_silence` return the cached
`(file, label)` list without touching the audio file, and for a fixed
configuration and item (whose resolution and content are unchanged by
the first call) a second call to any of the three operations returns the
same `(file, label)` list.  `segment_items`, however, loads the audio
file on every call, cache hit or not, because the sample rate enters its
hash key (see the counterexample); only its transform-and-write step is
skipped on a hit. -/
theorem claim5_memoization (ext : Ext) (it : Path × Label)
    (cfg : AudioTransformConfig) (path : Path) :
    (∀ (fs : FS) (f : Path) (rest : List Path),
      get_cache cfg "rs" [(resolvePath fs path it.1).str, pyOptNat cfg.resample_to]
          fs = some (f :: rest) →
      resample_item ext it cfg path fs
        = some (fs, (f :: rest).map (fun g => (g, it.2)), []))
    ∧ (∀ (fs : FS) (f : Path) (rest : List Path),
      get_cache cfg "sh" [(resolvePath fs path it.1).str,
          natStr cfg.silence_threshold, natStr cfg.silence_padding] fs
        = some (f :: rest) →
      remove_silence ext it cfg path fs
        = some (fs, (f :: rest).map (fun g => (g, it.2)), []))
    ∧ (∀ (fs fs2 : FS) (out : List (Path × Label)) (lds : List Path),
      segment_items it cfg path fs = some (fs2, out, lds) →
      lds = [resolvePath fs path it.1])
    ∧ (∀ (fs fs2 : FS) (out : List (Path × Label)) (lds : List Path),
      resample_item ext it cfg path fs = some (fs2, out, lds) →
      resolvePath fs2 path it.1 = resolvePath fs path it.1 →
      fs2.lookup (resolvePath fs path it.1) = fs.lookup (resolvePath fs path it.1) →
      (resample_item ext it cfg path fs2).map (fun r => r.2.1) = some out)
    ∧ (∀ (fs fs2 : FS) (out : List (Path × Label)) (lds : List Path),
      remove_silence ext it cfg path fs = some (fs2, out, lds) →
      resolvePath fs2 path it.1 = resolvePath fs path it.1 →
      fs2.lookup (resolvePath fs path it.1) = fs.lookup (resolvePath fs path it.1) →
      (remove_silence ext it cfg path fs2).map (fun r => r.2.1) = some out)
    ∧ (∀ (fs fs2 : FS) (out : List (Path × Label)) (lds : List Path),
      segment_items it cfg path fs = some (fs2, out, lds) →
      resolvePath fs2 path it.1 = resolvePath fs path it.1 →
      fs2.lookup (resolvePath fs path it.1) = fs.lookup (resolvePath fs path it.1) →
      (segment_items it cfg path fs2).map (fun r => r.2.1) = some out) := by
  refine ⟨?_, ?_, ?_, ?_, ?_, ?_⟩
  · intro fs f rest h
    unfold resample_item
    dsimp only
    rw [h]
  · intro fs f rest h
    unfold remove_silence
    dsimp only
    rw [h]
  · intro fs fs2 out lds h
    unfold segment_items at h
    dsimp only at h
    repeat' split at h
    all_goals
      first
      | exact Option.noConfusion h
      | (simp only [Option.some.injEq, Prod.mk.injEq] at h
         exact h.2.2.symm)
      | (rw [Option.map_eq_some'] at h
         obtain ⟨r, hmk, h2⟩ := h
         simp only [Prod.mk.injEq] at h2
         exact h2.2.2.symm)
  · exact fun fs fs2 out lds h h1 h2 =>
      resample_idem ext it cfg path fs fs2 out lds h h1 h2
  · exact fun fs fs2 out lds h h1 h2 =>
      remove_silence_idem ext it cfg path fs fs2 out lds h h1 h2
  · exact fun fs fs2 out lds h h1 h2 =>
      segment_idem it cfg path fs fs2 out lds h h1 h2

/-- Counterexample to claim C5 as stated: the cache directory of
`segment_items` exists and holds a file, yet the call still loads the
audio file (its loads list is non-empty), because the sample rate is
read before the cache lookup. -/
theorem claim5_counterexample :
    (get_cache cfgW9 "s" [ipW.str, natStr 16000, labW] fsW9).isSome = true
    ∧ get_cache cfgW9 "s" [ipW.str, natStr 16000, labW] fsW9 ≠ some []
    ∧ (segment_items (itemWa, labW) cfgW9 rootW fsW9).map (fun r => r.2.2)
      = some [ipW] := by
  refine ⟨by decide, by decide, by decide⟩

/-- Witness for the amended C5: concrete cache-hit runs of all three
operations, with the idempotence conclusions evaluated. -/
theorem claim5_witness :
    resample_item ext0 (itemWa, labW) cfgW9 rootW fsW9
      = some (fsW9, [(markRS9.child "0.wav", labW)], [])
    ∧ remove_silence ext0 (itemWa, labW) cfgW9 rootW fsW9
      = some (fsW9, [(markSH9.child "0.wav", labW)], [])
    ∧ (segment_items (itemWa, labW) cfgW9 rootW fsW9).map (fun r => r.2.2)
      = some [resolvePath fsW9 rootW itemWa]
    ∧ (resample_item ext0 (itemWa, labW) cfgW9 rootW fsW9).map (fun r => r.2.1)
      = some [(markRS9.child "0.wav", labW)]
    ∧ (remove_silence ext0 (itemWa, labW) cfgW9 rootW fsW9).map (fun r => r.2.1)
      = some [(markSH9.child "0.wav", labW)]
    ∧ (segment_items (itemWa, labW) cfgW9 rootW fsW9).map (fun r => r.2.1)
      = some [(markS9.child "0.wav", labW)] := by
  obtain ⟨p1, p2, p3, p4, p5, p6⟩ :=
    claim5_memoization ext0 (itemWa, labW) cfgW9 rootW
  have h1 := p1 fsW9 (markRS9.child "0.wav") [] (by decide)
  have h2 := p2 fsW9 (markSH9.child "0.wav") [] (by decide)
  have hseg : segment_items (itemWa, labW) cfgW9 rootW fsW9
      = some (fsW9, [(markS9.child "0.wav", labW)],
        [resolvePath fsW9 rootW itemWa]) := by decide
  refine ⟨h1, h2, ?_, ?_, ?_, ?_⟩
  · have hlds := p3 fsW9 fsW9 [(markS9.child "0.wav", labW)]
      [resolvePath fsW9 rootW itemWa] hseg
    rw [hseg, Option.map_some']
  · exact p4 fsW9 fsW9 [(markRS9.child "0.wav", labW)] [] h1 rfl rfl
  · exact p5 fsW9 fsW9 [(markSH9.child "0.wav", labW)] [] h2 rfl rfl
  · exact p6 fsW9 fsW9 [(markS9.child "0.wav", labW)]
      [resolvePath fsW9 rootW itemWa] hseg rfl rfl

end FastaiAudio
